import Mathlib

/-!
# seonaut: page reports, URL resolution and crawl handlers

A shallow embedding of `pagereport.go`, `internal/http/crawl.go`,
`internal/app/issues_handlers.go` and the URL issue reporters, together with the library
functions they call (`strings`, `net/url`, `strconv`, `htmlquery`).

Go strings are modelled as Lean `String`s, read as sequences of code points (valid UTF-8
text); where the library works on bytes (percent escapes) the model goes through the
UTF-8 bytes.  Go errors are `Except String`, the string being the error message.
-/

set_option maxRecDepth 100000
set_option linter.unusedVariables false

namespace Seonaut

deriving instance DecidableEq for Except

/-! ## Package `strings` / `unicode` -/

namespace strings

/-- The Go predicate `unicode.IsSpace`: the code points with the White_Space property. -/
def isSpace (c : Char) : Bool :=
  let n := c.toNat
  n = 0x09 || n = 0x0A || n = 0x0B || n = 0x0C || n = 0x0D || n = 0x20 ||
  n = 0x85 || n = 0xA0 || n = 0x1680 || (0x2000 ≤ n && n ≤ 0x200A) ||
  n = 0x2028 || n = 0x2029 || n = 0x202F || n = 0x205F || n = 0x3000

/-- `strings.TrimSpace`: drop leading and trailing white space. -/
def TrimSpace (s : String) : String :=
  String.mk ((s.data.dropWhile isSpace).reverse.dropWhile isSpace).reverse

/-- `strings.HasPrefix`. -/
def HasPrefix (s pre : String) : Bool := pre.data.isPrefixOf s.data

/-- `strings.HasSuffix`. -/
def HasSuffix (s suf : String) : Bool := suf.data.isSuffixOf s.data

/-- Does the list `sub` occur as a contiguous block of `s`? -/
def containsList (sub : List Char) : List Char → Bool
  | [] => sub.isEmpty
  | c :: cs => sub.isPrefixOf (c :: cs) || containsList sub cs

/-- `strings.Contains`. -/
def Contains (s sub : String) : Bool := containsList sub.data s.data

/-- `strings.Cut(s, sep)` for a one-byte separator: the text before and after the first
`sep`, or `none` when `sep` does not occur (Go then returns `s, "", false`). -/
def cutList (sep : Char) : List Char → Option (List Char × List Char)
  | [] => none
  | c :: cs =>
    if c = sep then some ([], cs)
    else match cutList sep cs with
      | some (a, b) => some (c :: a, b)
      | none => none

/-- The text before and after the LAST `sep` (`strings.LastIndex` for a one-byte
separator), or `none` when `sep` does not occur. -/
def cutLastList (sep : Char) (s : List Char) : Option (List Char × List Char) :=
  match cutList sep s.reverse with
  | some (a, b) => some (b.reverse, a.reverse)
  | none => none

/-- `strings.Split(s, sep)` for a one-byte separator. -/
def splitList (sep : Char) : List Char → List (List Char)
  | [] => [[]]
  | c :: cs =>
    match splitList sep cs with
    | [] => [[c]]
    | seg :: segs => if c = sep then [] :: seg :: segs else (c :: seg) :: segs

/-- `strings.Split(s, sep)` for a one-byte separator. -/
def Split (s : String) (sep : Char) : List String := (splitList sep s.data).map String.mk

/-- `strings.ReplaceAll(s, old, "")` for a one-byte `old`. -/
def RemoveAll (s : String) (old : Char) : String := String.mk (s.data.filter (· ≠ old))

/-- ASCII lower-casing; on the ASCII strings it is applied to here it is
`strings.ToLower`. -/
def asciiLower (c : Char) : Char :=
  if 'A'.toNat ≤ c.toNat ∧ c.toNat ≤ 'Z'.toNat then Char.ofNat (c.toNat + 32) else c

/-- Split into maximal runs of non-space characters, dropping the spaces: the helper
of `Fields`.  `cur` is the token being read, reversed. -/
def fieldsAux : List Char → List Char → List (List Char)
  | cur, [] => if cur.isEmpty then [] else [cur.reverse]
  | cur, c :: cs =>
    if isSpace c then
      (if cur.isEmpty then fieldsAux [] cs else cur.reverse :: fieldsAux [] cs)
    else fieldsAux (c :: cur) cs

/-- `strings.Fields`: the maximal runs of non-space characters. -/
def Fields (s : String) : List String := (fieldsAux [] s.data).map String.mk

end strings

/-! ## Package `net/url` -/

namespace url

/-- The Go type `url.Userinfo`. -/
structure Userinfo where
  username : String
  password : String
  passwordSet : Bool
deriving DecidableEq, Repr

/-- The Go type `url.URL`. -/
structure URL where
  Scheme : String := ""
  Opaque : String := ""
  User : Option Userinfo := none
  Host : String := ""
  Path : String := ""
  RawPath : String := ""
  OmitHost : Bool := false
  ForceQuery : Bool := false
  RawQuery : String := ""
  Fragment : String := ""
  RawFragment : String := ""
deriving DecidableEq, Repr

/-- The escaping modes of `net/url`. -/
inductive encoding where
  | encodePath
  | encodePathSegment
  | encodeHost
  | encodeZone
  | encodeUserPassword
  | encodeQueryComponent
  | encodeFragment
deriving DecidableEq, Repr

open encoding

def isAlpha (c : Nat) : Bool :=
  ('a'.toNat ≤ c && c ≤ 'z'.toNat) || ('A'.toNat ≤ c && c ≤ 'Z'.toNat)

def isDigit (c : Nat) : Bool := '0'.toNat ≤ c && c ≤ '9'.toNat

def ishex (c : Nat) : Bool :=
  isDigit c || ('a'.toNat ≤ c && c ≤ 'f'.toNat) || ('A'.toNat ≤ c && c ≤ 'F'.toNat)

def unhex (c : Nat) : Nat :=
  if isDigit c then c - '0'.toNat
  else if 'a'.toNat ≤ c && c ≤ 'f'.toNat then c - 'a'.toNat + 10
  else if 'A'.toNat ≤ c && c ≤ 'F'.toNat then c - 'A'.toNat + 10
  else 0

/-- Is the byte `c` one of the characters of `cs`? -/
def byteIn (c : Nat) (cs : List Char) : Bool := cs.any (fun x => x.toNat = c)

/-- `shouldEscape(c, mode)` of `net/url`, on a byte. -/
def shouldEscape (c : Nat) (mode : encoding) : Bool :=
  if isAlpha c || isDigit c then false
  else if (mode = encodeHost || mode = encodeZone) &&
      byteIn c ['!', '$', '&', '\'', '(', ')', '*', '+', ',', ';', '=', ':', '[', ']',
        '<', '>', '"'] then false
  else if byteIn c ['-', '_', '.', '~'] then false
  else if byteIn c ['$', '&', '+', ',', '/', ':', ';', '=', '?', '@'] &&
      mode = encodePath then c = '?'.toNat
  else if byteIn c ['$', '&', '+', ',', '/', ':', ';', '=', '?', '@'] &&
      mode = encodePathSegment then byteIn c ['/', ';', ',', '?']
  else if byteIn c ['$', '&', '+', ',', '/', ':', ';', '=', '?', '@'] &&
      mode = encodeUserPassword then byteIn c ['@', '/', '?', ':']
  else if byteIn c ['$', '&', '+', ',', '/', ':', ';', '=', '?', '@'] &&
      mode = encodeQueryComponent then true
  else if byteIn c ['$', '&', '+', ',', '/', ':', ';', '=', '?', '@'] &&
      mode = encodeFragment then false
  else if mode = encodeFragment && byteIn c ['!', '(', ')', '*'] then false
  else true

/-- The first pass of `unescape`: every `%` starts a well-formed escape that the mode
allows, and in a host every ASCII byte is one a host may hold. -/
def unescapeCheck (mode : encoding) : List Char → Except String Unit
  | [] => .ok ()
  | c :: rest =>
    if c = '%' then
      match rest with
      | a :: b :: rest2 =>
        if !ishex a.toNat || !ishex b.toNat then .error "invalid URL escape"
        else if mode = encodeHost && unhex a.toNat < 8 && !(a = '2' && b = '5') then
          .error "invalid URL escape"
        else if mode = encodeZone && !(a = '2' && b = '5') &&
            unhex a.toNat * 16 + unhex b.toNat ≠ ' '.toNat &&
            shouldEscape (unhex a.toNat * 16 + unhex b.toNat) encodeHost then
          .error "invalid URL escape"
        else unescapeCheck mode rest2
      | _ => .error "invalid URL escape"
    else if c = '+' then unescapeCheck mode rest
    else if (mode = encodeHost || mode = encodeZone) && c.toNat < 0x80 &&
        shouldEscape c.toNat encodeHost then
      .error "invalid character in host name"
    else unescapeCheck mode rest

/-- Is the byte `b` between `lo` and `hi`? -/
def byteBetween (lo hi b : Nat) : Bool := lo ≤ b && b ≤ hi

/-- May `b1` follow the lead byte `b0` of a three-byte UTF-8 encoding? -/
def utf8Second3 (b0 b1 : Nat) : Bool :=
  (b0 = 0xE0 && byteBetween 0xA0 0xBF b1) ||
  ((byteBetween 0xE1 0xEC b0 || byteBetween 0xEE 0xEF b0) && byteBetween 0x80 0xBF b1) ||
  (b0 = 0xED && byteBetween 0x80 0x9F b1)

/-- May `b1` follow the lead byte `b0` of a four-byte UTF-8 encoding? -/
def utf8Second4 (b0 b1 : Nat) : Bool :=
  (b0 = 0xF0 && byteBetween 0x90 0xBF b1) ||
  (byteBetween 0xF1 0xF3 b0 && byteBetween 0x80 0xBF b1) ||
  (b0 = 0xF4 && byteBetween 0x80 0x8F b1)

/-- The first code point of a byte string and the number of bytes it takes, as
`utf8.DecodeRuneInString` reads it: bytes that start no valid encoding give U+FFFD and the
width 1. -/
def utf8DecodeRune (bs : List Nat) : Char × Nat :=
  match bs with
  | [] => (Char.ofNat 0xFFFD, 1)
  | b0 :: rest =>
    if b0 < 0x80 then (Char.ofNat b0, 1)
    else
      match rest with
      | [] => (Char.ofNat 0xFFFD, 1)
      | b1 :: rest1 =>
        if byteBetween 0xC2 0xDF b0 && byteBetween 0x80 0xBF b1 then
          (Char.ofNat ((b0 - 0xC0) * 64 + (b1 - 0x80)), 2)
        else
          match rest1 with
          | [] => (Char.ofNat 0xFFFD, 1)
          | b2 :: rest2 =>
            if utf8Second3 b0 b1 && byteBetween 0x80 0xBF b2 then
              (Char.ofNat ((b0 - 0xE0) * 4096 + (b1 - 0x80) * 64 + (b2 - 0x80)), 3)
            else
              match rest2 with
              | [] => (Char.ofNat 0xFFFD, 1)
              | b3 :: _ =>
                if utf8Second4 b0 b1 && byteBetween 0x80 0xBF b2 &&
                    byteBetween 0x80 0xBF b3 then
                  (Char.ofNat ((b0 - 0xF0) * 262144 + (b1 - 0x80) * 4096 +
                    (b2 - 0x80) * 64 + (b3 - 0x80)), 4)
                else (Char.ofNat 0xFFFD, 1)

/-- The code points of a byte string, as Go reads a string rune by rune; `skip` bytes
belong to the code point read last. -/
def utf8DecodeAux : Nat → List Nat → List Char
  | _, [] => []
  | skip + 1, _ :: rest => utf8DecodeAux skip rest
  | 0, b :: rest =>
    (utf8DecodeRune (b :: rest)).1 :: utf8DecodeAux ((utf8DecodeRune (b :: rest)).2 - 1) rest

/-- The code points of a byte string, as Go reads a string rune by rune. -/
def utf8Decode (bs : List Nat) : List Char := utf8DecodeAux 0 bs

/-- The bytes that the second pass of `unescape` writes: each escape becomes its octet,
every other character its UTF-8 bytes. -/
def unescapeBytes (mode : encoding) : List Char → List Nat
  | [] => []
  | c :: rest =>
    if c = '%' then
      match rest with
      | a :: b :: rest2 => (unhex a.toNat * 16 + unhex b.toNat) :: unescapeBytes mode rest2
      | _ => []
    else if c = '+' then
      (if mode = encodeQueryComponent then ' '.toNat else '+'.toNat) ::
        unescapeBytes mode rest
    else (String.utf8EncodeChar c).map (fun b => b.toNat) ++ unescapeBytes mode rest

/-- The second pass of `unescape`: decode the escapes to bytes and read the byte string
as text.  The result is the Go string whenever the decoded bytes are valid UTF-8. -/
def unescapeBuild (mode : encoding) (s : List Char) : List Char :=
  utf8Decode (unescapeBytes mode s)

/-- `unescape(s, mode)` of `net/url`. -/
def unescape (s : List Char) (mode : encoding) : Except String (List Char) :=
  match unescapeCheck mode s with
  | .error e => .error e
  | .ok _ => .ok (unescapeBuild mode s)

def hexDigit (n : Nat) : Char :=
  if n < 10 then Char.ofNat ('0'.toNat + n) else Char.ofNat ('A'.toNat + (n - 10))

/-- One byte of `escape`. -/
def escapeByte (mode : encoding) (b : Nat) : List Char :=
  if shouldEscape b mode then
    if b = ' '.toNat && mode = encodeQueryComponent then ['+']
    else ['%', hexDigit (b / 16), hexDigit (b % 16)]
  else [Char.ofNat b]

/-- `escape(s, mode)` of `net/url`: it works on the UTF-8 bytes of `s`. -/
def escape (s : List Char) (mode : encoding) : List Char :=
  s.flatMap (fun c => (String.utf8EncodeChar c).flatMap (fun b => escapeByte mode b.toNat))

/-- `validEncoded(s, mode)` of `net/url`. -/
def validEncoded (s : List Char) (mode : encoding) : Bool :=
  s.all (fun c =>
    byteIn c.toNat ['!', '$', '&', '\'', '(', ')', '*', '+', ',', ';', '=', ':', '@',
      '[', ']', '%'] ||
    (String.utf8EncodeChar c).all (fun b => !shouldEscape b.toNat mode))

/-- `getScheme(rawURL)` of `net/url`: split off a leading `scheme:`.  `acc` is the part
of the URL read so far. -/
def getSchemeAux (rawURL : List Char) :
    List Char → List Char → Except String (List Char × List Char)
  | _, [] => .ok ([], rawURL)
  | acc, c :: rest =>
    if isAlpha c.toNat then getSchemeAux rawURL (acc ++ [c]) rest
    else if isDigit c.toNat || c = '+' || c = '-' || c = '.' then
      (if acc.isEmpty then .ok ([], rawURL) else getSchemeAux rawURL (acc ++ [c]) rest)
    else if c = ':' then
      (if acc.isEmpty then .error "missing protocol scheme" else .ok (acc, rest))
    else .ok ([], rawURL)

def getScheme (rawURL : List Char) : Except String (List Char × List Char) :=
  getSchemeAux rawURL [] rawURL

/-- `validOptionalPort(port)` of `net/url`. -/
def validOptionalPort : List Char → Bool
  | [] => true
  | c :: digits => c = ':' && digits.all (fun b => isDigit b.toNat)

/-- The position of the first `%25` in `s`, as the text before it and the text from it
on (`strings.Index(s, "%25")`). -/
def cutZone : List Char → Option (List Char × List Char)
  | [] => none
  | c :: cs =>
    if ['%', '2', '5'].isPrefixOf (c :: cs) then some ([], c :: cs)
    else match cutZone cs with
      | some (a, b) => some (c :: a, b)
      | none => none

/-- `parseHost(host)` of `net/url`. -/
def parseHost (host : List Char) : Except String (List Char) :=
  if ['['].isPrefixOf host then
    match strings.cutLastList ']' host with
    | none => .error "missing ']' in host"
    | some (inner, colonPort) =>
      if !validOptionalPort colonPort then .error "invalid port after host"
      else match cutZone inner with
        | some (h1, zone) => do
          let host1 ← unescape h1 encodeHost
          let host2 ← unescape zone encodeZone
          let host3 ← unescape (']' :: colonPort) encodeHost
          pure (host1 ++ host2 ++ host3)
        | none => unescape host encodeHost
  else
    match strings.cutLastList ':' host with
    | some (_, port) =>
      if !validOptionalPort (':' :: port) then .error "invalid port after host"
      else unescape host encodeHost
    | none => unescape host encodeHost

/-- `validUserinfo(s)` of `net/url`. -/
def validUserinfo (s : List Char) : Bool :=
  s.all (fun r => isAlpha r.toNat || isDigit r.toNat ||
    byteIn r.toNat ['-', '.', '_', ':', '~', '!', '$', '&', '\'', '(', ')', '*', '+',
      ',', ';', '=', '%', '@'])

/-- `parseAuthority(authority)` of `net/url`. -/
def parseAuthority (authority : List Char) :
    Except String (Option Userinfo × List Char) :=
  match strings.cutLastList '@' authority with
  | none => do
    let host ← parseHost authority
    pure (none, host)
  | some (userinfo, hostPart) => do
    let host ← parseHost hostPart
    if !validUserinfo userinfo then .error "net/url: invalid userinfo"
    else match strings.cutList ':' userinfo with
      | none => do
        let u ← unescape userinfo encodeUserPassword
        pure (some ⟨String.mk u, "", false⟩, host)
      | some (username, password) => do
        let u ← unescape username encodeUserPassword
        let p ← unescape password encodeUserPassword
        pure (some ⟨String.mk u, String.mk p, true⟩, host)

/-- `(*URL).setPath(p)` of `net/url`. -/
def setPath (u : URL) (p : List Char) : Except String URL :=
  match unescape p encodePath with
  | .error e => .error e
  | .ok path =>
    .ok { u with
      Path := String.mk path
      RawPath := if p = escape path encodePath then "" else String.mk p }

/-- `(*URL).setFragment(f)` of `net/url`. -/
def setFragment (u : URL) (f : List Char) : Except String URL :=
  match unescape f encodeFragment with
  | .error e => .error e
  | .ok frag =>
    .ok { u with
      Fragment := String.mk frag
      RawFragment := if f = escape frag encodeFragment then "" else String.mk f }

/-- `stringContainsCTLByte(s)` of `net/url`. -/
def stringContainsCTLByte (s : List Char) : Bool :=
  s.any (fun b => b.toNat < ' '.toNat || b.toNat = 0x7f)

/-- The authority and path steps of `parse(rawURL, viaRequest = false)`, after the scheme
and the query have been split off; `u` holds them. -/
def parseRest (u : URL) (rest : List Char) : Except String URL :=
  if (u.Scheme ≠ "" || !(['/', '/', '/'].isPrefixOf rest)) && ['/', '/'].isPrefixOf rest then
    match
      (match strings.cutList '/' (rest.drop 2) with
        | some (a, r) => (a, '/' :: r)
        | none => (rest.drop 2, [])) with
    | (authority, rest2) =>
      match parseAuthority authority with
      | .error e => .error e
      | .ok (user, host) => setPath { u with User := user, Host := String.mk host } rest2
  else if u.Scheme ≠ "" && ['/'].isPrefixOf rest then
    setPath { u with OmitHost := true } rest
  else setPath u rest

/-- `parse(rawURL, viaRequest = false)` of `net/url`. -/
def parse (rawURL : List Char) : Except String URL :=
  if stringContainsCTLByte rawURL then
    .error "net/url: invalid control character in URL"
  else if rawURL = ['*'] then .ok { Path := "*" }
  else
    match getScheme rawURL with
    | .error e => .error e
    | .ok (scheme, rest0) =>
      let u0 : URL := { Scheme := String.mk (scheme.map strings.asciiLower) }
      match
        (if ['?'].isSuffixOf rest0 && rest0.count '?' = 1 then
          ({ u0 with ForceQuery := true }, rest0.dropLast)
        else match strings.cutList '?' rest0 with
          | some (r, q) => ({ u0 with RawQuery := String.mk q }, r)
          | none => (u0, rest0)) with
      | (u, rest) =>
        if !(['/'].isPrefixOf rest) then
          if u.Scheme ≠ "" then .ok { u with Opaque := String.mk rest }
          else if ((strings.cutList '/' rest).map Prod.fst |>.getD rest).contains ':' then
            .error "first path segment in URL cannot contain colon"
          else parseRest u rest
        else parseRest u rest

/-- `url.Parse(rawURL)`: the Go standard library's URL parser. -/
def Parse (rawURL : String) : Except String URL :=
  match strings.cutList '#' rawURL.data with
  | none => parse rawURL.data
  | some (u, frag) =>
    match parse u with
    | .error e => .error e
    | .ok url => if frag.isEmpty then .ok url else setFragment url frag

/-- `(*Userinfo).String()` of `net/url`. -/
def Userinfo.String (u : Userinfo) : List Char :=
  escape u.username.data encodeUserPassword ++
    (if u.passwordSet then ':' :: escape u.password.data encodeUserPassword else [])

/-- `(*URL).EscapedPath()` of `net/url`. -/
def URL.EscapedPath (u : URL) : List Char :=
  if u.RawPath ≠ "" && validEncoded u.RawPath.data encodePath &&
      unescape u.RawPath.data encodePath = .ok u.Path.data then u.RawPath.data
  else if u.Path = "*" then ['*']
  else escape u.Path.data encodePath

/-- `(*URL).EscapedFragment()` of `net/url`. -/
def URL.EscapedFragment (u : URL) : List Char :=
  if u.RawFragment ≠ "" && validEncoded u.RawFragment.data encodeFragment &&
      unescape u.RawFragment.data encodeFragment = .ok u.Fragment.data then
    u.RawFragment.data
  else escape u.Fragment.data encodeFragment

/-- `(*URL).String()` of `net/url`: reassemble the URL. -/
def URL.String (u : URL) : String :=
  let head : List Char := if u.Scheme ≠ "" then u.Scheme.data ++ [':'] else []
  let body : List Char :=
    if u.Opaque ≠ "" then head ++ u.Opaque.data
    else
      let auth : List Char :=
        if u.Scheme ≠ "" || u.Host ≠ "" || u.User.isSome then
          if u.OmitHost && u.Host = "" && u.User.isNone then head
          else
            head ++
            (if u.Host ≠ "" || u.Path ≠ "" || u.User.isSome then ['/', '/'] else []) ++
            (match u.User with
              | some ui => ui.String ++ ['@']
              | none => []) ++
            (if u.Host ≠ "" then escape u.Host.data encodeHost else [])
        else head
      let path := u.EscapedPath
      let sep : List Char :=
        if path ≠ [] && path.head? ≠ some '/' && u.Host ≠ "" then ['/'] else []
      let dot : List Char :=
        if (auth ++ sep).isEmpty &&
            ((strings.cutList '/' path).map Prod.fst |>.getD path).contains ':'
        then ['.', '/'] else []
      auth ++ sep ++ dot ++ path
  let query : List Char :=
    if u.ForceQuery || u.RawQuery ≠ "" then '?' :: u.RawQuery.data else []
  let frag : List Char := if u.Fragment ≠ "" then '#' :: u.EscapedFragment else []
  String.mk (body ++ query ++ frag)

end url

/-! ## Package `golang.org/x/net/html`: the node tree -/

namespace html

/-- The Go type `html.NodeType`. -/
inductive NodeType where
  | ErrorNode
  | TextNode
  | DocumentNode
  | ElementNode
  | CommentNode
  | DoctypeNode
  | RawNode
deriving DecidableEq, Repr

/-- The Go type `html.Attribute`. -/
structure Attribute where
  Namespace : String := ""
  Key : String
  Val : String
deriving DecidableEq, Repr

/-- The Go type `html.Node`, as a tree: the node's type, its `Data` (tag name or text),
its attributes and its children in order.  The `Parent` pointer of the Go type is
passed along explicitly where the code reads it. -/
inductive Node where
  | mk (typ : NodeType) (data : String) (attr : List Attribute) (children : List Node)
deriving Repr

def Node.typ : Node → NodeType
  | .mk t _ _ _ => t

def Node.data : Node → String
  | .mk _ d _ _ => d

def Node.attr : Node → List Attribute
  | .mk _ _ a _ => a

def Node.children : Node → List Node
  | .mk _ _ _ cs => cs

/-- An element node. -/
def elem (name : String) (attr : List Attribute) (children : List Node) : Node :=
  .mk .ElementNode name attr children

/-- A text node. -/
def text (data : String) : Node := .mk .TextNode data [] []

/-- A comment node. -/
def comment (data : String) : Node := .mk .CommentNode data [] []

end html

/-! ## Package `github.com/antchfx/htmlquery` -/

namespace htmlquery

open html

mutual
/-- All nodes strictly below `n`, in document order. -/
def descendants : Node → List Node
  | .mk _ _ _ cs => descendantsList cs
/-- The nodes of a list of siblings and all nodes below them, in document order. -/
def descendantsList : List Node → List Node
  | [] => []
  | c :: cs => c :: (descendants c ++ descendantsList cs)
end

/-- `htmlquery.ExistsAttr(n, name)`. -/
def ExistsAttr (n : Node) (name : String) : Bool := n.attr.any (fun a => a.Key = name)

/-- `htmlquery.SelectAttr(n, name)` for a node of the document: the value of the first
attribute called `name`, or the empty string. -/
def SelectAttr (n : Node) (name : String) : String :=
  match n.attr.find? (fun a => a.Key = name) with
  | some a => a.Val
  | none => ""

mutual
/-- `htmlquery.InnerText(n)`: the text nodes below `n`, concatenated; comments are
skipped. -/
def innerTextChars : Node → List Char
  | .mk t d _ cs =>
    if t = .TextNode then d.data
    else if t = .CommentNode then []
    else innerTextList cs
def innerTextList : List Node → List Char
  | [] => []
  | c :: cs => innerTextChars c ++ innerTextList cs
end

/-- `htmlquery.InnerText(n)`. -/
def InnerText (n : Node) : String := String.mk (innerTextChars n)

/-- `htmlquery.Find(top, "//name")`: the elements called `name` below `top`, in document
order. -/
def Find (top : Node) (name : String) : List Node :=
  (descendants top).filter (fun n => n.typ = .ElementNode && n.data = name)

/-- `htmlquery.Find(top, "//name[@key]")`. -/
def FindWithAttr (top : Node) (name key : String) : List Node :=
  (Find top name).filter (fun n => ExistsAttr n key)

/-- `htmlquery.Find(top, "//name[@key=\"val\"]")`. -/
def FindWithAttrVal (top : Node) (name key val : String) : List Node :=
  (Find top name).filter (fun n => n.attr.any (fun a => a.Key = key && a.Val = val))

/-- The values of the attributes called `key` of the nodes `ns`: the step `/@key` of an
XPath expression, each result read back with `SelectAttr(_, key)`. -/
def attrValues (ns : List Node) (key : String) : List String :=
  ns.flatMap (fun n => (n.attr.filter (fun a => a.Key = key)).map (fun a => a.Val))

end htmlquery

/-! ## Package `net/http` -/

namespace http

/-- The Go type `http.Header`, a map from canonical header names to their values. -/
abbrev Header := String → List String

/-- `(Header).Get(key)` for a key in canonical form (`Content-Type`, `Location`): the
first value of the header, or the empty string. -/
def Header.Get (h : Header) (key : String) : String := (h key).headD ""

def StatusMultipleChoices : Int := 300

def StatusBadRequest : Int := 400

end http

/-! ## `pagereport.go`: the data model -/

open url (URL)

/-- The Go type `Link` of `pagereport.go`. -/
structure Link where
  URL : String := ""
  parsedUrl : url.URL := {}
  Rel : String := ""
  Text : String := ""
  External : Bool := false
deriving DecidableEq, Repr

/-- The Go type `Hreflang` of `pagereport.go`. -/
structure Hreflang where
  URL : String := ""
  Lang : String := ""
deriving DecidableEq, Repr

/-- The Go type `Image` of `pagereport.go`. -/
structure Image where
  URL : String := ""
  Alt : String := ""
deriving DecidableEq, Repr

/-- The Go type `PageReport` of `pagereport.go`. -/
structure PageReport where
  Id : Int := 0
  URL : String := ""
  parsedURL : url.URL := {}
  RedirectURL : String := ""
  Refresh : String := ""
  StatusCode : Int := 0
  ContentType : String := ""
  MediaType : String := ""
  Lang : String := ""
  Title : String := ""
  Description : String := ""
  Robots : String := ""
  Canonical : String := ""
  H1 : String := ""
  H2 : String := ""
  Links : List Link := []
  ExternalLinks : List Link := []
  Words : Int := 0
  Hreflangs : List Hreflang := []
  Body : List UInt8 := []
  Size : Int := 0
  Images : List Image := []
  Scripts : List String := []
  Styles : List String := []
deriving DecidableEq, Repr

/-! ## `pagereport.go`: URL resolution -/

/-- `(*PageReport).absoluteURL(s)` of `pagereport.go`, lines 302-346.  The library
function `url.Parse` that the code calls is the argument `urlParse`; on concrete inputs
it is instantiated with the model `url.Parse` above. -/
def absoluteURL (urlParse : String → Except String url.URL) (p : PageReport)
    (s : String) : Except String url.URL :=
  match urlParse (strings.TrimSpace s) with
  | .error err => .error err
  | .ok u =>
    if u.Scheme ≠ "" ∧ u.Scheme ≠ "http" ∧ u.Scheme ≠ "https" then
      .error "Protocol not supported"
    else if u.Scheme ≠ "" then
      .ok (if u.Path = "" then { u with Path := "/" } else u)
    else
      let u := if u.Scheme = "" then { u with Scheme := p.parsedURL.Scheme } else u
      let u := if u.Host = "" then { u with Host := p.parsedURL.Host } else u
      let u := { u with Fragment := "" }
      let u :=
        if u.Path ≠ "" ∧ ¬ strings.HasPrefix u.Path "/" then
          let basePath := p.parsedURL.Path
          let basePath := if ¬ strings.HasSuffix basePath "/" then basePath ++ "/" else basePath
          { u with Path := basePath ++ u.Path }
        else u
      let u :=
        if u.Path = "" then
          let basePath := p.parsedURL.Path
          let basePath := if basePath = "" then "/" else basePath
          { u with Path := basePath }
        else u
      .ok u


/-! ## `pagereport.go`: links, parsing and word count -/

/-- `(*PageReport).newLink(n)` of `pagereport.go`, lines 283-300. -/
def newLink (urlParse : String → Except String url.URL) (p : PageReport)
    (n : html.Node) : Except String Link :=
  let href := htmlquery.SelectAttr n "href"
  match absoluteURL urlParse p href with
  | .error err => .error err
  | .ok u =>
    .ok {
      URL := u.String
      parsedUrl := u
      Rel := strings.TrimSpace (htmlquery.SelectAttr n "rel")
      Text := strings.TrimSpace (htmlquery.InnerText n)
      External := decide (u.Host ≠ p.parsedURL.Host) }

/-- The regular expression replacement of `countWords`,
`re.ReplaceAllString(s, " ")` for the expression `[\p{P}\p{S}]+`: every maximal run of
punctuation or symbol characters becomes one space.  `isPunctSym` is the Unicode table
of the categories P and S; `inRun` says that the previous character was in a run. -/
def replacePunctSym (isPunctSym : Char → Bool) : Bool → List Char → List Char
  | _, [] => []
  | inRun, c :: cs =>
    if isPunctSym c then
      (if inRun then replacePunctSym isPunctSym true cs
       else ' ' :: replacePunctSym isPunctSym true cs)
    else c :: replacePunctSym isPunctSym false cs

mutual
/-- The local function `output` of `countWords`, lines 357-372: the text written to the
buffer for the node `n` whose parent is `parent`. -/
def output (parent : html.Node) : html.Node → List Char
  | .mk t d a cs =>
    if t = .TextNode then
      (if parent.typ = .ElementNode ∧ parent.data ≠ "script" then d.data ++ [' '] else [])
    else if t = .CommentNode then []
    else if t = .ElementNode ∧ d ≠ "a" then outputList (.mk t d a []) cs
    else []
/-- The loop over the children of a node in `output`; `parent` stands for that node (only
its type and name are read). -/
def outputList (parent : html.Node) : List html.Node → List Char
  | [] => []
  | c :: cs => output parent c ++ outputList parent cs
end

/-- `countWords(n)` of `pagereport.go`, lines 355-384; `parent` is `n.Parent`. -/
def countWords (isPunctSym : Char → Bool) (parent n : html.Node) : Int :=
  let buf := output parent n
  let t := replacePunctSym isPunctSym false buf
  ((strings.Fields (String.mk t)).length : Int)

/-- The `<meta http-equiv="refresh">` step of `parse`, lines 134-144.  An error is the
runtime panic of the slice expression `u[1][:4]` on a string shorter than four bytes. -/
def parseRefresh (urlParse : String → Except String url.URL) (pageReport : PageReport)
    (doc : html.Node) : Except String PageReport :=
  let refresh :=
    htmlquery.attrValues (htmlquery.FindWithAttrVal doc "meta" "http-equiv" "refresh") "content"
  match refresh with
  | [] => .ok pageReport
  | content :: _ =>
    let pageReport := { pageReport with Refresh := content }
    match strings.Split pageReport.Refresh ';' with
    | _ :: u1 :: _ =>
      if u1.utf8ByteSize < 4 then .error "runtime error: slice bounds out of range"
      else if (u1.data.take 4).map strings.asciiLower = ['u', 'r', 'l', '='] then
        match absoluteURL urlParse pageReport
            (strings.RemoveAll (String.mk (u1.data.drop 4)) '\'') with
        | .ok l => .ok { pageReport with RedirectURL := l.String }
        | .error _ => .ok pageReport
      else .ok pageReport
    | _ => .ok pageReport

/-- The `<a href>` loop of `parse`, lines 159-171. -/
def parseLinks (urlParse : String → Except String url.URL) (pageReport : PageReport)
    (list : List html.Node) : PageReport :=
  list.foldl (fun pageReport n =>
    match newLink urlParse pageReport n with
    | .error _ => pageReport
    | .ok l =>
      if l.External then { pageReport with ExternalLinks := pageReport.ExternalLinks ++ [l] }
      else { pageReport with Links := pageReport.Links ++ [l] }) pageReport

/-- The `lang` step of `parse`, lines 105-108. -/
def parseLang (pageReport : PageReport) (doc : html.Node) : PageReport :=
  match htmlquery.attrValues (htmlquery.Find doc "html") "lang" with
  | lang :: _ => { pageReport with Lang := lang }
  | [] => pageReport

/-- The `<title>` step of `parse`, lines 114-118. -/
def parseTitle (pageReport : PageReport) (doc : html.Node) : PageReport :=
  match htmlquery.Find doc "title" with
  | title :: _ => { pageReport with Title := strings.TrimSpace (htmlquery.InnerText title) }
  | [] => pageReport

/-- The `<meta name="description">` step of `parse`, lines 124-128. -/
def parseDescription (pageReport : PageReport) (doc : html.Node) : PageReport :=
  match htmlquery.attrValues
      (htmlquery.FindWithAttrVal doc "meta" "name" "description") "content" with
  | d :: _ => { pageReport with Description := strings.TrimSpace d }
  | [] => pageReport

/-- The `<meta name="robots">` step of `parse`, lines 150-153. -/
def parseRobots (pageReport : PageReport) (doc : html.Node) : PageReport :=
  match htmlquery.attrValues (htmlquery.FindWithAttrVal doc "meta" "name" "robots") "content" with
  | r :: _ => { pageReport with Robots := r }
  | [] => pageReport

/-- The `<h1>` step of `parse`, lines 177-180. -/
def parseH1 (pageReport : PageReport) (doc : html.Node) : PageReport :=
  match htmlquery.Find doc "h1" with
  | h1 :: _ => { pageReport with H1 := strings.TrimSpace (htmlquery.InnerText h1) }
  | [] => pageReport

/-- The `<h2>` step of `parse`, lines 186-189. -/
def parseH2 (pageReport : PageReport) (doc : html.Node) : PageReport :=
  match htmlquery.Find doc "h2" with
  | h2 :: _ => { pageReport with H2 := strings.TrimSpace (htmlquery.InnerText h2) }
  | [] => pageReport

/-- The canonical link step of `parse`, lines 195-201. -/
def parseCanonical (urlParse : String → Except String url.URL) (pageReport : PageReport)
    (doc : html.Node) : PageReport :=
  match htmlquery.attrValues (htmlquery.FindWithAttrVal doc "link" "rel" "canonical") "href" with
  | [canonical] =>
    (match absoluteURL urlParse pageReport canonical with
      | .ok cu => { pageReport with Canonical := cu.String }
      | .error _ => pageReport)
  | _ => pageReport

/-- The hreflang loop of `parse`, lines 207-221. -/
def parseHreflangs (urlParse : String → Except String url.URL) (pageReport : PageReport)
    (doc : html.Node) : PageReport :=
  (htmlquery.FindWithAttrVal doc "link" "rel" "alternate").foldl (fun pageReport n =>
    if htmlquery.ExistsAttr n "hreflang" then
      match absoluteURL urlParse pageReport (htmlquery.SelectAttr n "href") with
      | .error _ => pageReport
      | .ok l =>
        { pageReport with
          Hreflangs := pageReport.Hreflangs ++
            [{ URL := l.String, Lang := htmlquery.SelectAttr n "hreflang" }] }
    else pageReport) pageReport

/-- The image loop of `parse`, lines 227-241. -/
def parseImages (urlParse : String → Except String url.URL) (pageReport : PageReport)
    (doc : html.Node) : PageReport :=
  (htmlquery.Find doc "img").foldl (fun pageReport n =>
    match absoluteURL urlParse pageReport (htmlquery.SelectAttr n "src") with
    | .error _ => pageReport
    | .ok u =>
      { pageReport with
        Images := pageReport.Images ++
          [{ URL := u.String, Alt := htmlquery.SelectAttr n "alt" }] }) pageReport

/-- The script loop of `parse`, lines 247-256. -/
def parseScripts (urlParse : String → Except String url.URL) (pageReport : PageReport)
    (doc : html.Node) : PageReport :=
  (htmlquery.attrValues (htmlquery.FindWithAttr doc "script" "src") "src").foldl
    (fun pageReport s =>
      match absoluteURL urlParse pageReport s with
      | .error _ => pageReport
      | .ok u => { pageReport with Scripts := pageReport.Scripts ++ [u.String] })
    pageReport

/-- The stylesheet loop of `parse`, lines 262-272. -/
def parseStyles (urlParse : String → Except String url.URL) (pageReport : PageReport)
    (doc : html.Node) : PageReport :=
  (htmlquery.attrValues (htmlquery.FindWithAttrVal doc "link" "rel" "stylesheet") "href").foldl
    (fun pageReport s =>
      match absoluteURL urlParse pageReport s with
      | .error _ => pageReport
      | .ok u => { pageReport with Styles := pageReport.Styles ++ [u.String] })
    pageReport

/-- The word count step of `parse`, lines 277-280.  The parent of a `body` element is the
`html` element. -/
def parseWords (isPunctSym : Char → Bool) (pageReport : PageReport) (doc : html.Node) :
    PageReport :=
  match htmlquery.Find doc "body" with
  | body :: _ =>
    { pageReport with Words := countWords isPunctSym (html.elem "html" [] []) body }
  | [] => pageReport

/-- `(*PageReport).parse()` of `pagereport.go`, lines 94-281: its steps in order.
`htmlParse` is `htmlquery.Parse` on the body, `isPunctSym` the Unicode table behind
`[\p{P}\p{S}]`.  An error is a runtime panic. -/
def parse (urlParse : String → Except String url.URL)
    (htmlParse : List UInt8 → Except String html.Node) (isPunctSym : Char → Bool)
    (pageReport : PageReport) : Except String PageReport :=
  match htmlParse pageReport.Body with
  | .error _ => .ok pageReport
  | .ok doc =>
    let pageReport := parseLang pageReport doc
    let pageReport := parseTitle pageReport doc
    let pageReport := parseDescription pageReport doc
    match parseRefresh urlParse pageReport doc with
    | .error e => .error e
    | .ok pageReport =>
      let pageReport := parseRobots pageReport doc
      let pageReport := parseLinks urlParse pageReport (htmlquery.FindWithAttr doc "a" "href")
      let pageReport := parseH1 pageReport doc
      let pageReport := parseH2 pageReport doc
      let pageReport := parseCanonical urlParse pageReport doc
      let pageReport := parseHreflangs urlParse pageReport doc
      let pageReport := parseImages urlParse pageReport doc
      let pageReport := parseScripts urlParse pageReport doc
      let pageReport := parseStyles urlParse pageReport doc
      let pageReport := parseWords isPunctSym pageReport doc
      .ok pageReport

/-- `NewPageReport(url, status, headers, body)` of `pagereport.go`, lines 63-92.
`parseMediaType` is the media type returned by `mime.ParseMediaType` (its error is only
logged).  An error result is a runtime panic inside `parse`. -/
def NewPageReport (urlParse : String → Except String url.URL)
    (parseMediaType : String → String)
    (htmlParse : List UInt8 → Except String html.Node) (isPunctSym : Char → Bool)
    (url : url.URL) (status : Int) (headers : http.Header) (body : List UInt8) :
    Except String PageReport :=
  let pageReport : PageReport := {
    URL := url.String
    parsedURL := url
    StatusCode := status
    ContentType := headers.Get "Content-Type"
    Body := body
    Size := body.length }
  let pageReport := { pageReport with MediaType := parseMediaType pageReport.ContentType }
  if pageReport.StatusCode ≥ http.StatusMultipleChoices ∧
      pageReport.StatusCode < http.StatusBadRequest then
    match absoluteURL urlParse pageReport (headers.Get "Location") with
    | .ok l => .ok { pageReport with RedirectURL := l.String }
    | .error _ => .ok pageReport
  else if pageReport.MediaType = "text/html" then
    parse urlParse htmlParse isPunctSym pageReport
  else .ok pageReport

/-- The parsed form of the page URL `https://example.com/dir/page`. -/
def examplePageURL : url.URL :=
  { Scheme := "https", Host := "example.com", Path := "/dir/page" }

/-- A page report for the page `https://example.com/dir/page`. -/
def examplePage : PageReport :=
  { URL := "https://example.com/dir/page", parsedURL := examplePageURL }

/-- The Unicode categories P (punctuation) and S (symbol) on the ASCII range; outside it
this table has no entry.  It instantiates `isPunctSym` on ASCII examples. -/
def asciiPunctSym (c : Char) : Bool :=
  let n := c.toNat
  (0x21 ≤ n && n ≤ 0x2F) || (0x3A ≤ n && n ≤ 0x40) || (0x5B ≤ n && n ≤ 0x60) ||
    (0x7B ≤ n && n ≤ 0x7E)

/-- The tree of a document with three links: one to the page's own host, one to another
host and one with an unsupported scheme. -/
def linksDoc : html.Node :=
  .mk .DocumentNode "" [] [
    html.elem "html" [] [
      html.elem "head" [] [],
      html.elem "body" [] [
        html.elem "a" [{ Key := "href", Val := "/in" }] [html.text "in"],
        html.elem "a" [{ Key := "href", Val := "https://other.com/x" },
          { Key := "rel", Val := "nofollow" }] [html.text " out "],
        html.elem "a" [{ Key := "href", Val := "mailto:a@b.c" }] [html.text "mail"]]]]

/-- The headers of a redirect response to `/new`. -/
def redirectHeaders : http.Header := fun k => if k = "Location" then ["/new"] else []

/-- The headers of an HTML response. -/
def htmlHeaders : http.Header := fun k => if k = "Content-Type" then ["text/html"] else []

/-- Two page reports have the same link lists and the same parsed URL. -/
def sameLinks (a b : PageReport) : Prop :=
  a.Links = b.Links ∧ a.ExternalLinks = b.ExternalLinks ∧ a.parsedURL = b.parsedURL

/-- The successfully built links of the `<a href>` elements of `doc`, on a page whose
parsed URL is `url`, in document order. -/
def resolvedLinks (urlParse : String → Except String url.URL) (url : url.URL)
    (doc : html.Node) : List Link :=
  (htmlquery.FindWithAttr doc "a" "href").filterMap
    (fun n => (newLink urlParse { parsedURL := url } n).toOption)

/-- The report of an HTML page at `https://example.com/dir/page` whose tree is
`linksDoc`. -/
def linksReport : PageReport := {
  URL := "https://example.com/dir/page"
  parsedURL := examplePageURL
  StatusCode := 200
  ContentType := "text/html"
  MediaType := "text/html"
  Links := [{
    URL := "https://example.com/in"
    parsedUrl := { Scheme := "https", Host := "example.com", Path := "/in" }
    Text := "in" }]
  ExternalLinks := [{
    URL := "https://other.com/x"
    parsedUrl := { Scheme := "https", Host := "other.com", Path := "/x" }
    Rel := "nofollow"
    Text := "out"
    External := true }] }

/-! ## The word count, in the words of the specification -/

/-- Is `n` an element called `name`? -/
def isElement (name : String) (n : html.Node) : Bool :=
  n.typ = .ElementNode && n.data = name

mutual
/-- Every node of the subtree of a node, paired with its ancestors (the nearest first,
`anc` last), in document order. -/
def nodesWithAncestors (anc : List html.Node) :
    html.Node → List (List html.Node × html.Node)
  | .mk t d a cs => (anc, .mk t d a cs) :: nodesWithAncestorsList (.mk t d a cs :: anc) cs
def nodesWithAncestorsList (anc : List html.Node) :
    List html.Node → List (List html.Node × html.Node)
  | [] => []
  | c :: cs => nodesWithAncestors anc c ++ nodesWithAncestorsList anc cs
end

/-- A node counts when it is a text node (so not a comment), none of its ancestors is an
`<a>` element and its parent is not a `<script>` element. -/
def counts (x : List html.Node × html.Node) : Bool :=
  x.2.typ = .TextNode && !(x.1.any (isElement "a")) &&
    !(match x.1 with
      | [] => false
      | parent :: _ => isElement "script" parent)

/-- The text of the nodes of `l` that count, each followed by a space. -/
def textOf (l : List (List html.Node × html.Node)) : List Char :=
  (l.filter counts).flatMap (fun x => x.2.data.data ++ [' '])

/-- The maximal runs of `l` on which `p` is constant, in order: neighbours stay in one
run exactly when `p` gives them the same value. -/
def runsOf (p : Char → Bool) (l : List Char) : List (List Char) :=
  l.splitBy (fun a b => p a == p b)

/-- In the words of the specification: the text with every run of punctuation or symbol
characters replaced by one space. -/
def collapsePunctSymRuns (isPunctSym : Char → Bool) (l : List Char) : List Char :=
  (runsOf isPunctSym l).flatMap (fun run => if run.all isPunctSym then [' '] else run)

/-- In the words of the specification: the number of whitespace-delimited tokens of a
text, its maximal runs of characters that are not white space. -/
def tokenCount (l : List Char) : Nat :=
  ((runsOf strings.isSpace l).filter
    (fun run => run.all (fun c => !strings.isSpace c))).length

/-- The word count as the specification words it: the number of whitespace-delimited
tokens of the text of the counting text nodes of the body tree, each followed by a space,
after every run of punctuation or symbol characters has been replaced by one space. -/
def wordCountSpec (isPunctSym : Char → Bool) (body : html.Node) : Int :=
  (tokenCount (collapsePunctSymRuns isPunctSym (textOf (nodesWithAncestors [] body))) : Int)

mutual
/-- In the trees that `html.Parse` builds only elements have children. -/
def wellFormed : html.Node → Bool
  | .mk t _ _ cs => (t = .ElementNode || cs.isEmpty) && wellFormedList cs
def wellFormedList : List html.Node → Bool
  | [] => true
  | c :: cs => wellFormed c && wellFormedList cs
end

/-- The body element of
`<p>Hello <a href="#">click</a> world</p><script>ignored()</script>`. -/
def exampleBody : html.Node :=
  html.elem "body" [] [
    html.elem "p" [] [
      html.text "Hello ",
      html.elem "a" [{ Key := "href", Val := "#" }] [html.text "click"],
      html.text " world"],
    html.elem "script" [] [html.text "ignored()"]]

/-- The body element of `<p>don't stop-now a...b</p>`. -/
def punctBody : html.Node :=
  html.elem "body" [] [html.elem "p" [] [html.text "don't stop-now a...b"]]

/-! ## `internal/issues/page`: the URL reporters -/

namespace errors

/-- Modelled from the spec: the identifiers of the rules (`internal/issues/errors` is not
among the sources); the two that the URL reporters carry. -/
inductive ErrorType where
  | ErrorUnderscoreURL
  | ErrorSpaceURL
deriving DecidableEq, Repr

end errors

namespace models

/-- Modelled from the spec: the type `models.PageReport` with the fields that
`url_test.go` sets (`internal/models` is not among the sources). -/
structure PageReport where
  URL : String := ""
  Crawled : Bool := false
  MediaType : String := ""
  StatusCode : Int := 0
  Title : String := ""
deriving DecidableEq, Repr

/-- Modelled from the spec: the type `models.PageIssueReporter`, an error type paired with
a callback over the page report, the parsed document and the response headers.  The
callback gets a pointer to the report, so the model returns the report as the call leaves
it next to the verdict. -/
structure PageIssueReporter where
  ErrorType : errors.ErrorType
  Callback : PageReport → html.Node → http.Header → Bool × PageReport

end models

namespace page

/-- Modelled from the spec: `page.NewUnderscoreURLReporter` (`internal/issues/page` is not
among the sources, only its test `url_test.go`): the reporter of `ErrorUnderscoreURL`,
whose callback reports a page exactly when its URL contains `_` and leaves the report
as it is. -/
def NewUnderscoreURLReporter : models.PageIssueReporter where
  ErrorType := .ErrorUnderscoreURL
  Callback := fun pageReport _ _ => (strings.Contains pageReport.URL "_", pageReport)

/-- Modelled from the spec: `page.NewSpaceURLReporter` (`internal/issues/page` is not among
the sources, only its test `url_test.go`): the reporter of `ErrorSpaceURL`, whose callback
reports a page exactly when its URL contains a space and leaves the report as it is. -/
def NewSpaceURLReporter : models.PageIssueReporter where
  ErrorType := .ErrorSpaceURL
  Callback := fun pageReport _ _ => (strings.Contains pageReport.URL " ", pageReport)

end page

/-! ## Package `strconv` and query strings -/

namespace strconv

/-- The digits of a decimal numeral, as a number. -/
def digitsValue (digits : List Char) : Nat :=
  digits.foldl (fun n ch => n * 10 + (ch.toNat - '0'.toNat)) 0

/-- `strconv.Atoi(s)` on a 64-bit platform: an optional sign and decimal digits, within
the range of `int`. -/
def Atoi (s : String) : Except String Int :=
  match s.data with
  | [] => .error "invalid syntax"
  | c :: rest =>
    let digits := if c = '-' ∨ c = '+' then rest else c :: rest
    if digits.isEmpty || !digits.all (fun ch => url.isDigit ch.toNat) then
      .error "invalid syntax"
    else
      let n : Int := if c = '-' then - (digitsValue digits : Int) else (digitsValue digits : Int)
      if n < -(2 ^ 63) ∨ n > 2 ^ 63 - 1 then .error "value out of range" else .ok n

/-- `strconv.Itoa(i)`: the decimal numeral of `i`. -/
def Itoa (i : Int) : String :=
  if i < 0 then "-" ++ Nat.repr i.natAbs else Nat.repr i.natAbs

end strconv

namespace url

/-- `url.QueryUnescape(s)`. -/
def QueryUnescape (s : List Char) : Except String (List Char) :=
  unescape s encoding.encodeQueryComponent

/-- The loop of `parseQuery(m, query)` of `net/url` over the `&`-separated parts of the
query; the pairs are listed in the order in which they are appended to the map, and a part
that is malformed is skipped (`Query()` drops the error). -/
def parseQueryParts : List (List Char) → List (String × String)
  | [] => []
  | part :: parts =>
    if part.contains ';' || part.isEmpty then parseQueryParts parts
    else
      match
        (match strings.cutList '=' part with
          | some (k, v) => (k, v)
          | none => (part, [])) with
      | (k, v) =>
        match QueryUnescape k, QueryUnescape v with
        | .ok key, .ok value => (String.mk key, String.mk value) :: parseQueryParts parts
        | _, _ => parseQueryParts parts

/-- `(*URL).Query().Get(key)`: the first value of `key` in the query of the URL, or the
empty string. -/
def QueryGet (u : URL) (key : String) : String :=
  match (parseQueryParts (strings.splitList '&' u.RawQuery.data)).find?
      (fun kv => kv.1 = key) with
  | some kv => kv.2
  | none => ""

end url

/-! ## `internal/http/crawl.go` -/

namespace models

/-- Modelled from the spec: the type `models.Project` with the fields that `crawl.go`
reads and writes (`internal/models` is not among the sources). -/
structure Project where
  Id : Int := 0
  URL : String := ""
  BasicAuth : Bool := false
  AuthUser : String := ""
  AuthPass : String := ""
deriving DecidableEq, Repr

/-- Modelled from the spec: the type `models.User` with the field that `crawl.go` reads. -/
structure User where
  Id : Int := 0
deriving DecidableEq, Repr

/-- Modelled from the spec: the type `models.PageReportMessage`, the payload of a
`PageReport` event, with the fields that the websocket callback reads. -/
structure PageReportMessage where
  PageReport : PageReport
  Crawled : Int
  Discovered : Int
  Crawling : Bool
deriving DecidableEq, Repr

end models

namespace pubsub

/-- The dynamic value of `Message.Data` (`interface{}`): by the type assertions of the
callback it is a `*models.PageReportMessage`, an `int`, or something else. -/
inductive Data where
  | pageReportMessage (msg : models.PageReportMessage)
  | int (n : Int)
  | other
deriving DecidableEq, Repr

/-- Modelled from the spec: the type `pubsub.Message`, a named event with its payload. -/
structure Message where
  Name : String
  Data : Data
deriving DecidableEq, Repr

end pubsub

/-- A JSON value, as `encoding/json` encodes the Go values of the websocket messages. -/
inductive JSON where
  | null
  | bool (b : Bool)
  | num (n : Int)
  | str (s : String)
  | obj (fields : List (String × JSON))

namespace crawl

/-- What a handler does to its response writer and its services, in order. -/
inductive Effect where
  | redirect (target : String) (code : Int)
  | writeHeader (code : Int)
  | startCrawler (p : models.Project)
  | render (template : String) (p : models.Project)
deriving DecidableEq, Repr

/-- The part of `*http.Request` that the handlers read: the method, the URL, whether
`ParseForm` fails and the form values. -/
structure Request where
  Method : String := "GET"
  URL : url.URL := {}
  parseFormFails : Bool := false
  FormValue : String → String := fun _ => ""

/-- The services of the container that the handlers call: the user of the session
(`CookieSession.GetUser`) and `ProjectService.FindProject`. -/
structure App where
  GetUser : Option models.User
  FindProject : Int → Int → Except String models.Project

def StatusSeeOther : Int := 303

/-- `(*crawlHandler).handleCrawl(w, r)` of `crawl.go`, lines 34-73. -/
def handleCrawl (app : App) (r : Request) : List Effect :=
  match strconv.Atoi (url.QueryGet r.URL "pid") with
  | .error _ => [.redirect "/" StatusSeeOther]
  | .ok pid =>
    match app.GetUser with
    | none => [.redirect "/signout" StatusSeeOther]
    | some user =>
      match app.FindProject pid user.Id with
      | .error _ => [.redirect "/" StatusSeeOther]
      | .ok p =>
        if p.BasicAuth then
          [.redirect ("/crawl-auth?id=" ++ strconv.Itoa pid) StatusSeeOther]
        else
          [.startCrawler p, .redirect ("/crawl-live?pid=" ++ strconv.Itoa pid) StatusSeeOther]

/-- `(*crawlHandler).handleCrawlAuth(w, r)` of `crawl.go`, lines 122-176. -/
def handleCrawlAuth (app : App) (r : Request) : List Effect :=
  match strconv.Atoi (url.QueryGet r.URL "pid") with
  | .error _ => [.redirect "/" StatusSeeOther]
  | .ok pid =>
    match app.GetUser with
    | none => [.redirect "/signout" StatusSeeOther]
    | some user =>
      match app.FindProject pid user.Id with
      | .error _ => [.redirect "/" StatusSeeOther]
      | .ok p =>
        if r.Method = "POST" then
          if r.parseFormFails then [.redirect "/crawl-auth" StatusSeeOther]
          else
            let p := { p with
              BasicAuth := true
              AuthUser := r.FormValue "username"
              AuthPass := r.FormValue "password" }
            [.startCrawler p,
              .redirect ("/crawl-live?pid=" ++ strconv.Itoa pid) StatusSeeOther,
              .render "crawl_auth" p]
        else [.render "crawl_auth" p]

/-- The request that follows a redirect to `target`: a `GET` of that URL. -/
def followRedirect (target : String) : Option Request :=
  match url.Parse target with
  | .ok u => some { Method := "GET", URL := u }
  | .error _ => none

/-- The message that the subscriber callback of `handleCrawlWs` builds, lines 280-308, as
the JSON value that `WriteJSON` encodes.  An error is the runtime panic of a failed type
assertion. -/
def wsMessage (pubsubMessage : pubsub.Message) : Except String JSON :=
  let data : Except String JSON :=
    if pubsubMessage.Name = "PageReport" then
      match pubsubMessage.Data with
      | .pageReportMessage msg =>
        .ok (.obj [
          ("StatusCode", .num msg.PageReport.StatusCode),
          ("URL", .str msg.PageReport.URL),
          ("Crawled", .num msg.Crawled),
          ("Discovered", .num msg.Discovered),
          ("Crawling", .bool msg.Crawling)])
      | _ => .error "interface conversion: interface {} is not *models.PageReportMessage"
    else .ok .null
  match data with
  | .error e => .error e
  | .ok data =>
    if pubsubMessage.Name = "CrawlEnd" then
      match pubsubMessage.Data with
      | .int msg => .ok (.obj [("Name", .str pubsubMessage.Name), ("Data", .num msg)])
      | _ => .error "interface conversion: interface {} is not int"
    else .ok (.obj [("Name", .str pubsubMessage.Name), ("Data", data)])

/-- The websocket connection as its writers see it: whether the write lock `connLock` is
held, and the values handed to `WriteJSON` so far. -/
structure Conn where
  lockHeld : Bool := false
  written : List JSON := []

end crawl

/-- The page report of `url_test.go` for the URL `u`. -/
def testPageReport (u : String) : models.PageReport :=
  { URL := u, Crawled := true, MediaType := "text/html", StatusCode := 200,
    Title := "not empty description" }

/-- The Go value `&html.Node{}`. -/
def emptyNode : html.Node := .mk .ErrorNode "" [] []

/-- The Go value `&http.Header{}`. -/
def emptyHeader : http.Header := fun _ => []

/-- A project with BasicAuth enabled, its id 5, owned by the user 1. -/
def authProject : models.Project :=
  { Id := 5, URL := "https://example.com", BasicAuth := true }

/-- An application whose session holds the user 1 and whose only project is
`authProject`. -/
def authApp : crawl.App where
  GetUser := some { Id := 1 }
  FindProject := fun pid uid =>
    if pid = 5 ∧ uid = 1 then .ok authProject else .error "project not found"

/-- The request `GET /crawl?pid=5`. -/
def crawlRequest : crawl.Request :=
  { Method := "GET", URL := { Path := "/crawl", RawQuery := "pid=5" } }

/-! ## `internal/http/crawl.go`: the write lock of the websocket connection -/

namespace crawl

/-- `connLock.Lock()`: the lock is taken when it is free; on a held lock the call does
not return until the lock is released (`none`: the caller is blocked). -/
def Lock (conn : Conn) : Option Conn :=
  if conn.lockHeld then none else some { conn with lockHeld := true }

/-- `connLock.Unlock()`. -/
def Unlock (conn : Conn) : Conn := { conn with lockHeld := false }

/-- One iteration of the keepalive loop of `handleCrawlWs`, lines 323-330: take the lock,
set the write deadline, write the ping; when the write fails the goroutine returns, else
it releases the lock.  `pingErr` is the error that `conn.WriteMessage` returns.  The
result is the connection after the iteration and whether the loop goes on; `none` when
the iteration is blocked at `Lock`. -/
def keepaliveTick (pingErr : Option String) (conn : Conn) : Option (Conn × Bool) :=
  match Lock conn with
  | none => none
  | some conn =>
    match pingErr with
    | some _ => some (conn, false)
    | none => some (Unlock conn, true)

/-- The subscriber callback of `handleCrawlWs`, lines 279-316: build the message, take the
lock (`none`: blocked there, the lock being held), hand the message to `WriteJSON`,
release the lock, return the error of the write.  `writeErr` is the error that
`conn.WriteJSON` returns.  An error result is the runtime panic of a failed type
assertion. -/
def deliver (writeErr : Option String) (conn : Conn) (pubsubMessage : pubsub.Message) :
    Except String (Option (Conn × Option String)) :=
  match wsMessage pubsubMessage with
  | .error e => .error e
  | .ok ws =>
    match Lock conn with
    | none => .ok none
    | some conn =>
      let conn := { conn with written := conn.written ++ [ws] }
      let err := writeErr
      let conn := Unlock conn
      .ok (some (conn, err))

end crawl

/-! ## `internal/app/issues_handlers.go` -/

namespace app

/-- Modelled from the spec: the type `project.ProjectView` with the fields that
`issues_handlers.go` reads, the project and the id of its crawl (`internal/project` is not
among the sources). -/
structure ProjectView where
  Project : models.Project := {}
  CrawlId : Int := 0
deriving DecidableEq, Repr

/-- What a handler of `issues_handlers.go` does to its response writer and its services,
in order (logging left out).  A `panic` ends the handler. -/
inductive Effect where
  | redirect (target : String) (code : Int)
  | getIssuesCount (crawlId : Int)
  | getPaginatedReportsByIssue (crawlId : Int) (page : Int) (eid : String)
  | render (template : String)
  | panic (msg : String)
deriving DecidableEq, Repr

/-- The services that the handlers call.  `GetProjectView` returns a pointer, which may be
nil (`none`), and an error; `GetPaginatedReportsByIssue` returns whether it fails. -/
structure App where
  GetProjectView : Int → Int → Option ProjectView × Option String
  GetPaginatedReportsByIssue : Int → Int → String → Option String

/-- `(*App).serveIssues(user, w, r)` of `issues_handlers.go`, lines 27-58.  After the
redirect of the error branch of `GetProjectView` the handler goes on: it reads
`pv.Crawl.Id`, which panics on a nil `pv`.  `GetIssuesCount` is taken to return a
count. -/
def serveIssues (app : App) (user : models.User) (r : crawl.Request) : List Effect :=
  match strconv.Atoi (url.QueryGet r.URL "pid") with
  | .error _ => [.redirect "/" crawl.StatusSeeOther]
  | .ok pid =>
    match app.GetProjectView pid user.Id with
    | (pv, err) =>
      let onError : List Effect :=
        if err.isSome then [.redirect "/" crawl.StatusSeeOther] else []
      match pv with
      | none => onError ++ [.panic "invalid memory address or nil pointer dereference"]
      | some pv => onError ++ [.getIssuesCount pv.CrawlId, .render "issues"]

/-- `(*App).serveIssuesView(user, w, r)` of `issues_handlers.go`, lines 60-113. -/
def serveIssuesView (app : App) (user : models.User) (r : crawl.Request) : List Effect :=
  let eid := url.QueryGet r.URL "eid"
  if eid = "" then [.redirect "/" crawl.StatusSeeOther]
  else
    match strconv.Atoi (url.QueryGet r.URL "pid") with
    | .error _ => [.redirect "/" crawl.StatusSeeOther]
    | .ok pid =>
      let page : Int :=
        match strconv.Atoi (url.QueryGet r.URL "p") with
        | .ok page => page
        | .error _ => 1
      match app.GetProjectView pid user.Id with
      | (pv, err) =>
        if err.isSome then [.redirect "/" crawl.StatusSeeOther]
        else
          match pv with
          | none => [.panic "invalid memory address or nil pointer dereference"]
          | some pv =>
            match app.GetPaginatedReportsByIssue pv.CrawlId page eid with
            | some _ =>
              [.getPaginatedReportsByIssue pv.CrawlId page eid,
                .redirect "/" crawl.StatusSeeOther]
            | none => [.getPaginatedReportsByIssue pv.CrawlId page eid, .render "issues_view"]

end app

/-- An application in which no project view is found: `GetProjectView` returns a nil
pointer and an error. -/
def noViewApp : app.App where
  GetProjectView := fun _ _ => (none, some "project view not found")
  GetPaginatedReportsByIssue := fun _ _ _ => none

/-- An application in which `GetProjectView` returns an error next to a view. -/
def staleViewApp : app.App where
  GetProjectView := fun _ _ => (some { CrawlId := 9 }, some "project view not found")
  GetPaginatedReportsByIssue := fun _ _ _ => none

/-- The request `GET /issues?pid=7`. -/
def issuesRequest : crawl.Request :=
  { Method := "GET", URL := { Path := "/issues", RawQuery := "pid=7" } }

/-- The request `GET /issues/view?pid=7&eid=E1`. -/
def issuesViewRequest : crawl.Request :=
  { Method := "GET", URL := { Path := "/issues/view", RawQuery := "pid=7&eid=E1" } }

/-- The tree of the document
`<html><head><meta http-equiv="refresh" content="..."></head><body></body></html>`. -/
def refreshDoc (content : String) : html.Node :=
  .mk .DocumentNode "" [] [
    html.elem "html" [] [
      html.elem "head" [] [
        html.elem "meta" [{ Key := "http-equiv", Val := "refresh" },
          { Key := "content", Val := content }] []],
      html.elem "body" [] []]]

/-! ## Theorems -/

theorem examplePageURL_parsed :
    url.Parse "https://example.com/dir/page" = .ok examplePageURL := by decide

theorem examplePageURL_string :
    examplePageURL.String = "https://example.com/dir/page" := by decide

/-- What `absoluteURL` returns for an input that parses without a scheme. -/
theorem absoluteURL_noScheme (urlParse : String → Except String url.URL) (p : PageReport)
    (s : String) (u : url.URL) (hu : urlParse (strings.TrimSpace s) = .ok u)
    (hs : u.Scheme = "") :
    ∃ r, absoluteURL urlParse p s = .ok r ∧ r.Scheme = p.parsedURL.Scheme ∧
      r.Host = (if u.Host = "" then p.parsedURL.Host else u.Host) ∧ r.Fragment = "" ∧
      (strings.HasPrefix u.Path "/" = true → r.Path = u.Path) := by
  obtain ⟨sch, op, usr, host, path, rp, oh, fq, rq, fr, rf⟩ := u
  simp only at hs
  subst hs
  have e : strings.HasPrefix "" "/" = false := by decide
  by_cases hh : host = "" <;> by_cases hp : path = "" <;>
    by_cases hpre : strings.HasPrefix path "/" = true <;>
    simp [absoluteURL, hu, hh, hp, hpre, e] <;> split_ifs <;> simp

/-- The method `absoluteURL` reads only the parsed URL of its page report. -/
theorem absoluteURL_congr (urlParse : String → Except String url.URL) (p q : PageReport)
    (s : String) (h : p.parsedURL = q.parsedURL) :
    absoluteURL urlParse p s = absoluteURL urlParse q s := by
  simp only [absoluteURL, h]

/-- C1, as amended: on a page whose URL is `https://example.com/dir/page`,
`absoluteURL("sub/x")` succeeds and returns `https://example.com/dir/page/sub/x`: a
relative path is appended to the whole path of the page after one `/`. -/
theorem C1_absoluteURL_relative_appends (p : PageReport)
    (h : url.Parse "https://example.com/dir/page" = .ok p.parsedURL) :
    absoluteURL url.Parse p "sub/x" =
        .ok { Scheme := "https", Host := "example.com", Path := "/dir/page/sub/x" } ∧
      url.URL.String { Scheme := "https", Host := "example.com", Path := "/dir/page/sub/x" } =
        "https://example.com/dir/page/sub/x" := by
  have hp : p.parsedURL = examplePage.parsedURL := by
    rw [examplePageURL_parsed] at h
    exact (Except.ok.inj h).symm
  rw [absoluteURL_congr url.Parse p examplePage "sub/x" hp]
  decide

theorem C1_absoluteURL_relative_appends_witness :
    absoluteURL url.Parse examplePage "sub/x" =
        .ok { Scheme := "https", Host := "example.com", Path := "/dir/page/sub/x" } ∧
      url.URL.String { Scheme := "https", Host := "example.com", Path := "/dir/page/sub/x" } =
        "https://example.com/dir/page/sub/x" :=
  C1_absoluteURL_relative_appends examplePage (by decide)

/-- C1 as stated fails: on the page `https://example.com/dir/page` the result of
`absoluteURL("sub/x")` is not the URL with path `/dir/sub/x`. -/
theorem C1_counterexample :
    ¬ ∃ r, absoluteURL url.Parse examplePage "sub/x" = .ok r ∧
      r.Scheme = "https" ∧ r.Host = "example.com" ∧ r.Path = "/dir/sub/x" := by
  have h : absoluteURL url.Parse examplePage "sub/x" =
      .ok { Scheme := "https", Host := "example.com", Path := "/dir/page/sub/x" } := by
    decide
  rintro ⟨r, hr, -, -, hpath⟩
  rw [h] at hr
  have := Except.ok.inj hr
  subst this
  exact absurd hpath (by decide)

/-- C2, as amended: for every page and every input that parses without a scheme,
`absoluteURL` succeeds and the returned URL has an empty fragment; so `/a#top` and `#top`
resolve without their fragment. -/
theorem C2_fragment_stripped_without_scheme :
    (∀ (urlParse : String → Except String url.URL) (p : PageReport) (s : String)
        (u : url.URL), urlParse (strings.TrimSpace s) = .ok u → u.Scheme = "" →
        ∃ r, absoluteURL urlParse p s = .ok r ∧ r.Fragment = "") ∧
    absoluteURL url.Parse examplePage "/a#top" =
      .ok { Scheme := "https", Host := "example.com", Path := "/a" } ∧
    absoluteURL url.Parse examplePage "#top" =
      .ok { Scheme := "https", Host := "example.com", Path := "/dir/page", RawFragment := "" } := by
  refine ⟨?_, by decide, by decide⟩
  intro urlParse p s u hu hs
  obtain ⟨r, hr, -, -, hf, -⟩ := absoluteURL_noScheme urlParse p s u hu hs
  exact ⟨r, hr, hf⟩

theorem C2_fragment_stripped_without_scheme_witness :
    ∃ r, absoluteURL url.Parse examplePage " /a#top " = .ok r ∧ r.Fragment = "" :=
  C2_fragment_stripped_without_scheme.1 url.Parse examplePage " /a#top "
    { Path := "/a", Fragment := "top" } (by decide) (by decide)

/-- C2 as stated fails: an input that carries its own `https` scheme keeps its fragment:
`absoluteURL("https://example.com/a#top")` returns a URL whose fragment is `top`. -/
theorem C2_counterexample :
    ∃ r, absoluteURL url.Parse examplePage "https://example.com/a#top" = .ok r ∧
      r.Fragment = "top" ∧ r.Fragment ≠ "" ∧ r.String = "https://example.com/a#top" :=
  ⟨{ Scheme := "https", Host := "example.com", Path := "/a", Fragment := "top" },
    by decide, by decide, by decide, by decide⟩

/-- C3: `absoluteURL` fails exactly when the trimmed input does not parse or parses with
a scheme other than `http` and `https`; an input whose scheme is `http`, `https` or absent
resolves; on a page with an `http`/`https` URL every result has scheme `http` or `https`;
`ftp://x`, `mailto:a@b.c` and `javascript:void(0)` are rejected. -/
theorem C3_absoluteURL_error_iff :
    (∀ (urlParse : String → Except String url.URL) (p : PageReport) (s : String),
      (∃ e, absoluteURL urlParse p s = .error e) ↔
        ((∃ e, urlParse (strings.TrimSpace s) = .error e) ∨
          ∃ u, urlParse (strings.TrimSpace s) = .ok u ∧
            u.Scheme ≠ "" ∧ u.Scheme ≠ "http" ∧ u.Scheme ≠ "https")) ∧
    (∀ (urlParse : String → Except String url.URL) (p : PageReport) (s : String)
      (u : url.URL), urlParse (strings.TrimSpace s) = .ok u →
      (u.Scheme = "" ∨ u.Scheme = "http" ∨ u.Scheme = "https") →
      ∃ r, absoluteURL urlParse p s = .ok r) ∧
    (∀ (urlParse : String → Except String url.URL) (p : PageReport) (s : String)
      (r : url.URL), (p.parsedURL.Scheme = "http" ∨ p.parsedURL.Scheme = "https") →
      absoluteURL urlParse p s = .ok r → (r.Scheme = "http" ∨ r.Scheme = "https")) ∧
    absoluteURL url.Parse examplePage "ftp://x" = .error "Protocol not supported" ∧
    absoluteURL url.Parse examplePage "mailto:a@b.c" = .error "Protocol not supported" ∧
    absoluteURL url.Parse examplePage "javascript:void(0)" =
      .error "Protocol not supported" := by
  have key : ∀ (urlParse : String → Except String url.URL) (p : PageReport) (s : String)
      (u : url.URL), urlParse (strings.TrimSpace s) = .ok u →
      (u.Scheme = "" ∨ u.Scheme = "http" ∨ u.Scheme = "https") →
      ∃ r, absoluteURL urlParse p s = .ok r ∧
        (r.Scheme = u.Scheme ∨ (u.Scheme = "" ∧ r.Scheme = p.parsedURL.Scheme)) := by
    intro urlParse p s u hu hs
    by_cases h0 : u.Scheme = ""
    · obtain ⟨r, hr, hsch, -⟩ := absoluteURL_noScheme urlParse p s u hu h0
      exact ⟨r, hr, Or.inr ⟨h0, hsch⟩⟩
    · have hnot : ¬ (u.Scheme ≠ "" ∧ u.Scheme ≠ "http" ∧ u.Scheme ≠ "https") := by
        rintro ⟨-, h1, h2⟩
        rcases hs with h | h | h
        · exact h0 h
        · exact h1 h
        · exact h2 h
      refine ⟨if u.Path = "" then { u with Path := "/" } else u, ?_, Or.inl ?_⟩
      · simp only [absoluteURL, hu, if_neg hnot]
        rw [if_pos h0]
      · split <;> rfl
  refine ⟨?_, ?_, ?_, by decide, by decide, by decide⟩
  · intro urlParse p s
    constructor
    · rintro ⟨e, he⟩
      cases hu : urlParse (strings.TrimSpace s) with
      | error e2 => exact Or.inl ⟨e2, rfl⟩
      | ok u =>
        right
        refine ⟨u, rfl, ?_⟩
        by_contra hcon
        have hs : u.Scheme = "" ∨ u.Scheme = "http" ∨ u.Scheme = "https" := by
          by_contra hn
          push_neg at hn
          exact hcon ⟨hn.1, hn.2.1, hn.2.2⟩
        obtain ⟨r, hr, -⟩ := key urlParse p s u hu hs
        rw [hr] at he
        cases he
    · rintro (⟨e, he⟩ | ⟨u, hu, hs⟩)
      · exact ⟨e, by simp only [absoluteURL, he]⟩
      · exact ⟨"Protocol not supported", by simp only [absoluteURL, hu, if_pos hs]⟩
  · intro urlParse p s u hu hs
    obtain ⟨r, hr, -⟩ := key urlParse p s u hu hs
    exact ⟨r, hr⟩
  · intro urlParse p s r hp hr
    cases hu : urlParse (strings.TrimSpace s) with
    | error e2 =>
      simp only [absoluteURL, hu] at hr
      cases hr
    | ok u =>
      by_cases hs : u.Scheme = "" ∨ u.Scheme = "http" ∨ u.Scheme = "https"
      · obtain ⟨r2, hr2, hsch⟩ := key urlParse p s u hu hs
        rw [hr2] at hr
        have := Except.ok.inj hr
        subst this
        rcases hsch with h | ⟨h0, h⟩
        · rcases hs with h1 | h1 | h1
          · obtain ⟨r3, hr3, hsch3, -⟩ := absoluteURL_noScheme urlParse p s u hu h1
            rw [hr2] at hr3
            have := Except.ok.inj hr3
            subst this
            rw [hsch3]
            exact hp
          · exact Or.inl (h.trans h1)
          · exact Or.inr (h.trans h1)
        · rw [h]
          exact hp
      · push_neg at hs
        simp only [absoluteURL, hu, if_pos (show u.Scheme ≠ "" ∧ u.Scheme ≠ "http" ∧
          u.Scheme ≠ "https" from ⟨hs.1, hs.2.1, hs.2.2⟩)] at hr
        cases hr

theorem C3_absoluteURL_error_iff_witness :
    ∃ r, absoluteURL url.Parse examplePage "http://example.com" = .ok r :=
  C3_absoluteURL_error_iff.2.1 url.Parse examplePage "http://example.com"
    { Scheme := "http", Host := "example.com" } (by decide) (by decide)

/-- C4: for every page and every input that parses without a scheme, `absoluteURL`
returns a URL with the page's scheme, with the input's host when it has one and the page's
host otherwise, and with the input's path unchanged when that path begins with `/`; on the
page `https://example.com/dir/page`, `/abs` resolves to `https://example.com/abs` and
`//other.com/x` to `https://other.com/x`. -/
theorem C4_absoluteURL_inherits :
    (∀ (urlParse : String → Except String url.URL) (p : PageReport) (s : String)
      (u : url.URL), urlParse (strings.TrimSpace s) = .ok u → u.Scheme = "" →
      ∃ r, absoluteURL urlParse p s = .ok r ∧ r.Scheme = p.parsedURL.Scheme ∧
        (u.Host ≠ "" → r.Host = u.Host) ∧ (u.Host = "" → r.Host = p.parsedURL.Host) ∧
        (strings.HasPrefix u.Path "/" = true → r.Path = u.Path)) ∧
    (∃ r, absoluteURL url.Parse examplePage "/abs" = .ok r ∧
      r = { Scheme := "https", Host := "example.com", Path := "/abs" } ∧
      r.String = "https://example.com/abs") ∧
    (∃ r, absoluteURL url.Parse examplePage "//other.com/x" = .ok r ∧
      r = { Scheme := "https", Host := "other.com", Path := "/x" } ∧
      r.String = "https://other.com/x") := by
  refine ⟨?_, ⟨_, by decide, rfl, by decide⟩, ⟨_, by decide, rfl, by decide⟩⟩
  intro urlParse p s u hu hs
  obtain ⟨r, hr, hsch, hhost, -, hpath⟩ := absoluteURL_noScheme urlParse p s u hu hs
  refine ⟨r, hr, hsch, ?_, ?_, hpath⟩
  · intro hne
    rw [hhost, if_neg hne]
  · intro he
    rw [hhost, if_pos he]

theorem C4_absoluteURL_inherits_witness :
    ∃ r, absoluteURL url.Parse examplePage "//other.com/x" = .ok r ∧
      r.Scheme = examplePage.parsedURL.Scheme ∧
      (("other.com" : String) ≠ "" → r.Host = "other.com") ∧
      (("other.com" : String) = "" → r.Host = examplePage.parsedURL.Host) ∧
      (strings.HasPrefix "/x" "/" = true → r.Path = "/x") :=
  C4_absoluteURL_inherits.1 url.Parse examplePage "//other.com/x"
    { Host := "other.com", Path := "/x" } (by decide) (by decide)

/-! ### Links -/

/-- The method `newLink` reads only the parsed URL of its page report. -/
theorem newLink_congr (urlParse : String → Except String url.URL) (p q : PageReport)
    (n : html.Node) (h : p.parsedURL = q.parsedURL) :
    newLink urlParse p n = newLink urlParse q n := by
  simp only [newLink, absoluteURL_congr urlParse p q _ h, h]

/-- The links of `list` that resolve on the page `q`, in order. -/
theorem parseLinks_spec (urlParse : String → Except String url.URL) (q : PageReport)
    (list : List html.Node) :
    ∀ pr : PageReport, pr.parsedURL = q.parsedURL →
      (parseLinks urlParse pr list).Links = pr.Links ++
        ((list.filterMap (fun n => (newLink urlParse q n).toOption)).filter
          (fun l => !l.External)) ∧
      (parseLinks urlParse pr list).ExternalLinks = pr.ExternalLinks ++
        ((list.filterMap (fun n => (newLink urlParse q n).toOption)).filter
          (fun l => l.External)) ∧
      (parseLinks urlParse pr list).parsedURL = q.parsedURL := by
  induction list with
  | nil => intro pr h; simp [parseLinks, h]
  | cons n ns ih =>
    intro pr h
    have hstep : parseLinks urlParse pr (n :: ns) =
        parseLinks urlParse
          (match newLink urlParse pr n with
            | .error _ => pr
            | .ok l =>
              if l.External then { pr with ExternalLinks := pr.ExternalLinks ++ [l] }
              else { pr with Links := pr.Links ++ [l] }) ns := by
      simp only [parseLinks, List.foldl_cons]
    rw [hstep, newLink_congr urlParse pr q n h]
    cases hl : newLink urlParse q n with
    | error e =>
      have ho : (newLink urlParse q n).toOption = none := by rw [hl]; rfl
      obtain ⟨h1, h2, h3⟩ := ih pr h
      simp only [List.filterMap_cons, ho]
      exact ⟨h1, h2, h3⟩
    | ok l =>
      have ho : (newLink urlParse q n).toOption = some l := by rw [hl]; rfl
      simp only [List.filterMap_cons, ho]
      by_cases hx : l.External = true
      · obtain ⟨h1, h2, h3⟩ := ih { pr with ExternalLinks := pr.ExternalLinks ++ [l] } h
        simp only [hx, if_true]
        refine ⟨?_, ?_, h3⟩
        · rw [h1]; simp [hx]
        · rw [h2]; simp [hx]
      · obtain ⟨h1, h2, h3⟩ := ih { pr with Links := pr.Links ++ [l] } h
        have hx2 : l.External = false := by simpa using hx
        simp only [hx2, Bool.false_eq_true, if_false]
        refine ⟨?_, ?_, h3⟩
        · rw [h1]; simp [hx2]
        · rw [h2]; simp [hx2]

theorem sameLinks_refl (a : PageReport) : sameLinks a a := ⟨rfl, rfl, rfl⟩

theorem sameLinks_trans {a b c : PageReport} (h1 : sameLinks a b) (h2 : sameLinks b c) :
    sameLinks a c :=
  ⟨h1.1.trans h2.1, h1.2.1.trans h2.2.1, h1.2.2.trans h2.2.2⟩

/-- A loop whose body keeps the link lists keeps them. -/
theorem foldl_sameLinks {α : Type} (f : PageReport → α → PageReport)
    (hf : ∀ pr x, sameLinks (f pr x) pr) (l : List α) :
    ∀ pr, sameLinks (l.foldl f pr) pr := by
  induction l with
  | nil => intro pr; exact sameLinks_refl pr
  | cons x xs ih =>
    intro pr
    rw [List.foldl_cons]
    exact sameLinks_trans (ih (f pr x)) (hf pr x)

theorem parseLang_sameLinks (pr : PageReport) (doc : html.Node) :
    sameLinks (parseLang pr doc) pr := by
  unfold parseLang; split <;> exact ⟨rfl, rfl, rfl⟩

theorem parseTitle_sameLinks (pr : PageReport) (doc : html.Node) :
    sameLinks (parseTitle pr doc) pr := by
  unfold parseTitle; split <;> exact ⟨rfl, rfl, rfl⟩

theorem parseDescription_sameLinks (pr : PageReport) (doc : html.Node) :
    sameLinks (parseDescription pr doc) pr := by
  unfold parseDescription; split <;> exact ⟨rfl, rfl, rfl⟩

theorem parseRobots_sameLinks (pr : PageReport) (doc : html.Node) :
    sameLinks (parseRobots pr doc) pr := by
  unfold parseRobots; split <;> exact ⟨rfl, rfl, rfl⟩

theorem parseH1_sameLinks (pr : PageReport) (doc : html.Node) :
    sameLinks (parseH1 pr doc) pr := by
  unfold parseH1; split <;> exact ⟨rfl, rfl, rfl⟩

theorem parseH2_sameLinks (pr : PageReport) (doc : html.Node) :
    sameLinks (parseH2 pr doc) pr := by
  unfold parseH2; split <;> exact ⟨rfl, rfl, rfl⟩

theorem parseWords_sameLinks (isPunctSym : Char → Bool) (pr : PageReport) (doc : html.Node) :
    sameLinks (parseWords isPunctSym pr doc) pr := by
  unfold parseWords; split <;> exact ⟨rfl, rfl, rfl⟩

theorem parseCanonical_sameLinks (urlParse : String → Except String url.URL)
    (pr : PageReport) (doc : html.Node) : sameLinks (parseCanonical urlParse pr doc) pr := by
  unfold parseCanonical
  split
  · split <;> exact ⟨rfl, rfl, rfl⟩
  · exact ⟨rfl, rfl, rfl⟩

theorem parseHreflangs_sameLinks (urlParse : String → Except String url.URL)
    (pr : PageReport) (doc : html.Node) : sameLinks (parseHreflangs urlParse pr doc) pr := by
  unfold parseHreflangs
  apply foldl_sameLinks
  intro pr x
  split
  · split <;> exact ⟨rfl, rfl, rfl⟩
  · exact ⟨rfl, rfl, rfl⟩

theorem parseImages_sameLinks (urlParse : String → Except String url.URL)
    (pr : PageReport) (doc : html.Node) : sameLinks (parseImages urlParse pr doc) pr := by
  unfold parseImages
  apply foldl_sameLinks
  intro pr x
  split <;> exact ⟨rfl, rfl, rfl⟩

theorem parseScripts_sameLinks (urlParse : String → Except String url.URL)
    (pr : PageReport) (doc : html.Node) : sameLinks (parseScripts urlParse pr doc) pr := by
  unfold parseScripts
  apply foldl_sameLinks
  intro pr x
  split <;> exact ⟨rfl, rfl, rfl⟩

theorem parseStyles_sameLinks (urlParse : String → Except String url.URL)
    (pr : PageReport) (doc : html.Node) : sameLinks (parseStyles urlParse pr doc) pr := by
  unfold parseStyles
  apply foldl_sameLinks
  intro pr x
  split <;> exact ⟨rfl, rfl, rfl⟩

theorem parseRefresh_sameLinks (urlParse : String → Except String url.URL)
    (pr pr2 : PageReport) (doc : html.Node) (h : parseRefresh urlParse pr doc = .ok pr2) :
    sameLinks pr2 pr := by
  unfold parseRefresh at h
  simp only at h
  split at h
  · cases h; exact ⟨rfl, rfl, rfl⟩
  · split at h
    · split at h
      · cases h
      · split at h
        · split at h <;> cases h <;> exact ⟨rfl, rfl, rfl⟩
        · cases h; exact ⟨rfl, rfl, rfl⟩
    · cases h; exact ⟨rfl, rfl, rfl⟩

/-- The link lists that `parse` leaves in a report that enters it with none. -/
theorem parse_links (urlParse : String → Except String url.URL)
    (htmlParse : List UInt8 → Except String html.Node) (isPunctSym : Char → Bool)
    (pr0 pr : PageReport) (doc : html.Node) (hdoc : htmlParse pr0.Body = .ok doc)
    (h : parse urlParse htmlParse isPunctSym pr0 = .ok pr) :
    pr.Links = pr0.Links ++
        (resolvedLinks urlParse pr0.parsedURL doc).filter (fun l => !l.External) ∧
      pr.ExternalLinks = pr0.ExternalLinks ++
        (resolvedLinks urlParse pr0.parsedURL doc).filter (fun l => l.External) ∧
      pr.parsedURL = pr0.parsedURL := by
  unfold parse at h
  rw [hdoc] at h
  simp only at h
  split at h
  · cases h
  · rename_i pr1 hr
    have h1 : sameLinks pr1 pr0 :=
      sameLinks_trans (parseRefresh_sameLinks urlParse _ _ doc hr)
        (sameLinks_trans (parseDescription_sameLinks _ doc)
          (sameLinks_trans (parseTitle_sameLinks _ doc) (parseLang_sameLinks _ doc)))
    have h2 : sameLinks (parseRobots pr1 doc) pr0 :=
      sameLinks_trans (parseRobots_sameLinks _ doc) h1
    have h3 := parseLinks_spec urlParse { parsedURL := pr0.parsedURL }
      (htmlquery.FindWithAttr doc "a" "href") (parseRobots pr1 doc) h2.2.2
    have h4 : sameLinks pr
        (parseLinks urlParse (parseRobots pr1 doc) (htmlquery.FindWithAttr doc "a" "href")) := by
      have := Except.ok.inj h
      rw [← this]
      exact sameLinks_trans (parseWords_sameLinks _ _ doc)
        (sameLinks_trans (parseStyles_sameLinks _ _ doc)
          (sameLinks_trans (parseScripts_sameLinks _ _ doc)
            (sameLinks_trans (parseImages_sameLinks _ _ doc)
              (sameLinks_trans (parseHreflangs_sameLinks _ _ doc)
                (sameLinks_trans (parseCanonical_sameLinks _ _ doc)
                  (sameLinks_trans (parseH2_sameLinks _ doc) (parseH1_sameLinks _ doc)))))))
    refine ⟨?_, ?_, ?_⟩
    · rw [h4.1, h3.1, h2.1]; rfl
    · rw [h4.2.1, h3.2.1, h2.2.1]; rfl
    · rw [h4.2.2, h3.2.2]

/-- What a successfully built link records. -/
theorem newLink_ok (urlParse : String → Except String url.URL) (p : PageReport)
    (n : html.Node) (u : url.URL)
    (h : absoluteURL urlParse p (htmlquery.SelectAttr n "href") = .ok u) :
    ∃ l, newLink urlParse p n = .ok l ∧ l.parsedUrl = u ∧ l.URL = u.String ∧
      (l.External = true ↔ u.Host ≠ p.parsedURL.Host) := by
  refine ⟨Link.mk u.String u (strings.TrimSpace (htmlquery.SelectAttr n "rel"))
      (strings.TrimSpace (htmlquery.InnerText n)) (decide (u.Host ≠ p.parsedURL.Host)),
      ?_, rfl, rfl, ?_⟩
  · simp only [newLink, h]
  · simp

/-- A link that does not resolve is not built. -/
theorem newLink_error (urlParse : String → Except String url.URL) (p : PageReport)
    (n : html.Node) (e : String)
    (h : absoluteURL urlParse p (htmlquery.SelectAttr n "href") = .error e) :
    newLink urlParse p n = .error e := by
  simp only [newLink, h]

/-- Every resolved link is external exactly when its host is not the host of the page. -/
theorem mem_resolvedLinks (urlParse : String → Except String url.URL) (url : url.URL)
    (doc : html.Node) (l : Link) (h : l ∈ resolvedLinks urlParse url doc) :
    (l.External = true ↔ l.parsedUrl.Host ≠ url.Host) := by
  unfold resolvedLinks at h
  obtain ⟨n, -, hn⟩ := List.mem_filterMap.mp h
  cases hu : absoluteURL urlParse { parsedURL := url } (htmlquery.SelectAttr n "href") with
  | error e =>
    rw [newLink_error urlParse _ n e hu] at hn
    cases hn
  | ok u =>
    obtain ⟨l2, hl2, hp, -, hx⟩ := newLink_ok urlParse _ n u hu
    rw [hl2] at hn
    have : l2 = l := Option.some.inj hn
    subst this
    rw [hp]
    exact hx

/-- The link lists of every report that `NewPageReport` returns. -/
theorem NewPageReport_links (urlParse : String → Except String url.URL)
    (parseMediaType : String → String) (htmlParse : List UInt8 → Except String html.Node)
    (isPunctSym : Char → Bool) (url : url.URL) (status : Int) (headers : http.Header)
    (body : List UInt8) (pr : PageReport)
    (h : NewPageReport urlParse parseMediaType htmlParse isPunctSym url status headers body =
      .ok pr) :
    (pr.Links = [] ∧ pr.ExternalLinks = []) ∨
    (¬ (300 ≤ status ∧ status < 400) ∧ parseMediaType (headers.Get "Content-Type") = "text/html" ∧
      ∃ doc, htmlParse body = .ok doc ∧
        pr.Links = (resolvedLinks urlParse url doc).filter (fun l => !l.External) ∧
        pr.ExternalLinks = (resolvedLinks urlParse url doc).filter (fun l => l.External)) := by
  unfold NewPageReport at h
  simp only [http.StatusMultipleChoices, http.StatusBadRequest, ge_iff_le] at h
  split at h
  · left
    split at h <;> cases h <;> exact ⟨rfl, rfl⟩
  · rename_i hst
    split at h
    · rename_i hmt
      cases hdoc : htmlParse body with
      | error e =>
        left
        unfold parse at h
        simp only [hdoc] at h
        cases h
        exact ⟨rfl, rfl⟩
      | ok doc =>
        right
        obtain ⟨h1, h2, -⟩ := parse_links urlParse htmlParse isPunctSym _ pr doc hdoc h
        exact ⟨hst, hmt, doc, rfl, by simpa using h1, by simpa using h2⟩
    · left
      cases h
      exact ⟨rfl, rfl⟩

/-- C5: a link built by `newLink` is external exactly when the host of its resolved URL is
not the host of the page, and no link is built for an href that does not resolve; the loop
of `parse` appends the built links to `ExternalLinks` when external and to `Links`
otherwise; so in every report of `NewPageReport` the elements of `Links` have the page's host
and `External = false`, those of `ExternalLinks` another host and `External = true`, and
on an HTML page the two lists are exactly the resolved links of the `<a href>`
elements, split by that flag. -/
theorem C5_links_classified_by_host :
    (∀ (urlParse : String → Except String url.URL) (p : PageReport) (n : html.Node),
      (∀ u, absoluteURL urlParse p (htmlquery.SelectAttr n "href") = .ok u →
        ∃ l, newLink urlParse p n = .ok l ∧ l.parsedUrl = u ∧
          (l.External = true ↔ u.Host ≠ p.parsedURL.Host)) ∧
      (∀ e, absoluteURL urlParse p (htmlquery.SelectAttr n "href") = .error e →
        newLink urlParse p n = .error e)) ∧
    (∀ (urlParse : String → Except String url.URL) (pr : PageReport) (list : List html.Node),
      (parseLinks urlParse pr list).Links = pr.Links ++
        ((list.filterMap (fun n => (newLink urlParse pr n).toOption)).filter
          (fun l => !l.External)) ∧
      (parseLinks urlParse pr list).ExternalLinks = pr.ExternalLinks ++
        ((list.filterMap (fun n => (newLink urlParse pr n).toOption)).filter
          (fun l => l.External))) ∧
    (∀ (urlParse : String → Except String url.URL) (parseMediaType : String → String)
      (htmlParse : List UInt8 → Except String html.Node) (isPunctSym : Char → Bool)
      (url : url.URL) (status : Int) (headers : http.Header) (body : List UInt8)
      (pr : PageReport),
      NewPageReport urlParse parseMediaType htmlParse isPunctSym url status headers body =
        .ok pr →
      (∀ l ∈ pr.Links, l.parsedUrl.Host = url.Host ∧ l.External = false) ∧
      (∀ l ∈ pr.ExternalLinks, l.parsedUrl.Host ≠ url.Host ∧ l.External = true)) ∧
    (∀ (urlParse : String → Except String url.URL) (parseMediaType : String → String)
      (htmlParse : List UInt8 → Except String html.Node) (isPunctSym : Char → Bool)
      (url : url.URL) (status : Int) (headers : http.Header) (body : List UInt8)
      (doc : html.Node) (pr : PageReport),
      ¬ (300 ≤ status ∧ status < 400) →
      parseMediaType (headers.Get "Content-Type") = "text/html" →
      htmlParse body = .ok doc →
      NewPageReport urlParse parseMediaType htmlParse isPunctSym url status headers body =
        .ok pr →
      pr.Links = (resolvedLinks urlParse url doc).filter (fun l => !l.External) ∧
      pr.ExternalLinks = (resolvedLinks urlParse url doc).filter (fun l => l.External)) := by
  refine ⟨?_, ?_, ?_, ?_⟩
  · intro urlParse p n
    refine ⟨?_, fun e he => newLink_error urlParse p n e he⟩
    intro u hu
    obtain ⟨l, hl, hp, -, hx⟩ := newLink_ok urlParse p n u hu
    exact ⟨l, hl, hp, hx⟩
  · intro urlParse pr list
    obtain ⟨h1, h2, -⟩ := parseLinks_spec urlParse pr list pr rfl
    exact ⟨h1, h2⟩
  · intro urlParse parseMediaType htmlParse isPunctSym url status headers body pr h
    rcases NewPageReport_links urlParse parseMediaType htmlParse isPunctSym url status
      headers body pr h with ⟨h1, h2⟩ | ⟨-, -, doc, -, h1, h2⟩
    · rw [h1, h2]
      exact ⟨fun l hl => absurd hl (List.not_mem_nil l),
        fun l hl => absurd hl (List.not_mem_nil l)⟩
    · rw [h1, h2]
      constructor
      · intro l hl
        obtain ⟨hmem, hx⟩ := List.mem_filter.mp hl
        have hx2 : l.External = false := by simpa using hx
        refine ⟨?_, hx2⟩
        by_contra hne
        have := (mem_resolvedLinks urlParse url doc l hmem).mpr hne
        rw [hx2] at this
        cases this
      · intro l hl
        obtain ⟨hmem, hx⟩ := List.mem_filter.mp hl
        exact ⟨(mem_resolvedLinks urlParse url doc l hmem).mp hx, hx⟩
  · intro urlParse parseMediaType htmlParse isPunctSym url status headers body doc pr
      hst hmt hdoc h
    unfold NewPageReport at h
    simp only [http.StatusMultipleChoices, http.StatusBadRequest, ge_iff_le] at h
    rw [if_neg hst, if_pos hmt] at h
    obtain ⟨h3, h4, -⟩ := parse_links urlParse htmlParse isPunctSym _ pr doc hdoc h
    exact ⟨by simpa using h3, by simpa using h4⟩

theorem C5_links_classified_by_host_witness :
    linksReport.Links =
        (resolvedLinks url.Parse examplePageURL linksDoc).filter (fun l => !l.External) ∧
      linksReport.ExternalLinks =
        (resolvedLinks url.Parse examplePageURL linksDoc).filter (fun l => l.External) :=
  C5_links_classified_by_host.2.2.2 url.Parse (fun s => s) (fun _ => .ok linksDoc)
    asciiPunctSym examplePageURL 200 htmlHeaders [] linksDoc linksReport
    (by decide) (by decide) rfl (by decide)

/-- C6: for every URL, every status from 300 to 399, every header set and every body,
`NewPageReport` returns a report whose `RedirectURL` is the `Location` header resolved by
`absoluteURL` against the page URL (empty when that fails) and whose structural fields are
all empty; for `https://example.com/old`, status 301 and `Location: /new` the
`RedirectURL` is `https://example.com/new`. -/
theorem C6_redirect_short_circuits :
    (∀ (urlParse : String → Except String url.URL) (parseMediaType : String → String)
      (htmlParse : List UInt8 → Except String html.Node) (isPunctSym : Char → Bool)
      (url : url.URL) (status : Int) (headers : http.Header) (body : List UInt8),
      300 ≤ status → status ≤ 399 →
      ∃ pr, NewPageReport urlParse parseMediaType htmlParse isPunctSym url status headers
          body = .ok pr ∧
        pr.RedirectURL =
          (match absoluteURL urlParse { parsedURL := url } (headers.Get "Location") with
            | .ok l => l.String
            | .error _ => "") ∧
        pr.Lang = "" ∧ pr.Title = "" ∧ pr.Description = "" ∧ pr.Robots = "" ∧
        pr.Canonical = "" ∧ pr.H1 = "" ∧ pr.H2 = "" ∧ pr.Refresh = "" ∧ pr.Links = [] ∧
        pr.ExternalLinks = [] ∧ pr.Hreflangs = [] ∧ pr.Images = [] ∧ pr.Scripts = [] ∧
        pr.Styles = [] ∧ pr.Words = 0) ∧
    (∀ (parseMediaType : String → String)
      (htmlParse : List UInt8 → Except String html.Node) (isPunctSym : Char → Bool)
      (headers : http.Header) (body : List UInt8), headers "Location" = ["/new"] →
      ∃ pr, NewPageReport url.Parse parseMediaType htmlParse isPunctSym
          { Scheme := "https", Host := "example.com", Path := "/old" } 301 headers body =
            .ok pr ∧
        pr.URL = "https://example.com/old" ∧
        pr.RedirectURL = "https://example.com/new") := by
  have gen : ∀ (urlParse : String → Except String url.URL) (parseMediaType : String → String)
      (htmlParse : List UInt8 → Except String html.Node) (isPunctSym : Char → Bool)
      (url : url.URL) (status : Int) (headers : http.Header) (body : List UInt8),
      300 ≤ status → status ≤ 399 →
      ∃ pr, NewPageReport urlParse parseMediaType htmlParse isPunctSym url status headers
          body = .ok pr ∧ pr.URL = url.String ∧
        pr.RedirectURL =
          (match absoluteURL urlParse { parsedURL := url } (headers.Get "Location") with
            | .ok l => l.String
            | .error _ => "") ∧
        pr.Lang = "" ∧ pr.Title = "" ∧ pr.Description = "" ∧ pr.Robots = "" ∧
        pr.Canonical = "" ∧ pr.H1 = "" ∧ pr.H2 = "" ∧ pr.Refresh = "" ∧ pr.Links = [] ∧
        pr.ExternalLinks = [] ∧ pr.Hreflangs = [] ∧ pr.Images = [] ∧ pr.Scripts = [] ∧
        pr.Styles = [] ∧ pr.Words = 0 := by
    intro urlParse parseMediaType htmlParse isPunctSym url status headers body h1 h2
    have hst : status ≥ 300 ∧ status < 400 := ⟨h1, by omega⟩
    unfold NewPageReport
    simp only [http.StatusMultipleChoices, http.StatusBadRequest]
    rw [if_pos hst]
    split
    · rename_i l heq
      have hl : absoluteURL urlParse { parsedURL := url } (headers.Get "Location") = .ok l :=
        (absoluteURL_congr urlParse { parsedURL := url } _ _ rfl).trans heq
      rw [hl]
      exact ⟨_, rfl, by simp⟩
    · rename_i e heq
      have hl : absoluteURL urlParse { parsedURL := url } (headers.Get "Location") =
          .error e := (absoluteURL_congr urlParse { parsedURL := url } _ _ rfl).trans heq
      rw [hl]
      exact ⟨_, rfl, by simp⟩
  refine ⟨?_, ?_⟩
  · intro urlParse parseMediaType htmlParse isPunctSym url status headers body h1 h2
    obtain ⟨pr, hpr, -, rest⟩ :=
      gen urlParse parseMediaType htmlParse isPunctSym url status headers body h1 h2
    exact ⟨pr, hpr, rest⟩
  · intro parseMediaType htmlParse isPunctSym headers body hloc
    obtain ⟨pr, hpr, hurl, hred, -⟩ := gen url.Parse parseMediaType htmlParse isPunctSym
      { Scheme := "https", Host := "example.com", Path := "/old" } 301 headers body
      (by decide) (by decide)
    refine ⟨pr, hpr, ?_, ?_⟩
    · rw [hurl]; decide
    · rw [hred]
      have hget : http.Header.Get headers "Location" = "/new" := by
        simp [http.Header.Get, hloc]
      rw [hget]
      decide

theorem C6_redirect_short_circuits_witness :
    ∃ pr, NewPageReport url.Parse (fun s => s) (fun _ => .ok linksDoc) asciiPunctSym
        { Scheme := "https", Host := "example.com", Path := "/old" } 301 redirectHeaders
        [60, 97, 62] = .ok pr ∧
      pr.URL = "https://example.com/old" ∧ pr.RedirectURL = "https://example.com/new" :=
  C6_redirect_short_circuits.2 (fun s => s) (fun _ => .ok linksDoc) asciiPunctSym
    redirectHeaders [60, 97, 62] (by decide)

/-! ### Word count -/

theorem typ_mk (t : html.NodeType) (d : String) (a : List html.Attribute)
    (cs : List html.Node) : (html.Node.mk t d a cs).typ = t := rfl

theorem data_mk (t : html.NodeType) (d : String) (a : List html.Attribute)
    (cs : List html.Node) : (html.Node.mk t d a cs).data = d := rfl

theorem textOf_nil : textOf [] = [] := rfl

theorem textOf_append (l1 l2 : List (List html.Node × html.Node)) :
    textOf (l1 ++ l2) = textOf l1 ++ textOf l2 := by
  simp [textOf, List.filter_append, List.flatMap_append]

theorem textOf_cons (x : List html.Node × html.Node)
    (l : List (List html.Node × html.Node)) :
    textOf (x :: l) = (if counts x then x.2.data.data ++ [' '] else []) ++ textOf l := by
  by_cases h : counts x = true
  · simp [textOf, List.filter_cons, h]
  · simp [textOf, List.filter_cons, h]

/-- Every node below an `<a>` element has an `<a>` element among its ancestors, so none
of them counts. -/
theorem textOf_below_anchor (n : html.Node) :
    ∀ anc : List html.Node, anc.any (isElement "a") = true →
      textOf (nodesWithAncestors anc n) = [] := by
  induction n using html.Node.rec
    (motive_2 := fun cs => ∀ anc : List html.Node, anc.any (isElement "a") = true →
      textOf (nodesWithAncestorsList anc cs) = []) with
  | mk t d a cs ih =>
    intro anc h
    rw [nodesWithAncestors, textOf_cons]
    have hc : counts (anc, html.Node.mk t d a cs) = false := by
      simp only [counts, h]
      simp
    rw [hc]
    have h2 : (html.Node.mk t d a cs :: anc).any (isElement "a") = true := by
      simp only [List.any_cons, h, Bool.or_true]
    simpa using ih _ h2
  | nil => rfl
  | cons c cs ihc ihcs =>
    rename_i anc h
    rw [nodesWithAncestorsList, textOf_append, ihc anc h, ihcs anc h]
    rfl

theorem textOfList_below_anchor (cs : List html.Node) (anc : List html.Node)
    (h : anc.any (isElement "a") = true) :
    textOf (nodesWithAncestorsList anc cs) = [] := by
  induction cs with
  | nil => rfl
  | cons c cs ih =>
    rw [nodesWithAncestorsList, textOf_append, textOf_below_anchor c anc h, ih]
    rfl

/-- The traversal of `output` writes the text of the counting nodes: below a chain of
ancestors that are elements, none of them an `<a>`, the buffer is the specified text. -/
theorem output_eq_textOf (n : html.Node) :
    ∀ (anc : List html.Node) (parent p : html.Node) (rest : List html.Node),
      wellFormed n = true → anc = p :: rest → anc.any (isElement "a") = false →
      p.typ = .ElementNode → parent.typ = p.typ → parent.data = p.data →
      output parent n = textOf (nodesWithAncestors anc n) := by
  induction n using html.Node.rec
    (motive_2 := fun cs =>
      ∀ (anc : List html.Node) (parent p : html.Node) (rest : List html.Node),
        wellFormedList cs = true → anc = p :: rest → anc.any (isElement "a") = false →
        p.typ = .ElementNode → parent.typ = p.typ → parent.data = p.data →
        outputList parent cs = textOf (nodesWithAncestorsList anc cs)) with
  | mk t d a cs ih =>
    intro anc parent p rest hwf hanc hno hp hpt hpd
    rw [nodesWithAncestors, textOf_cons, output]
    rw [wellFormed] at hwf
    have hwf1 : (decide (t = html.NodeType.ElementNode) || cs.isEmpty) = true := by
      revert hwf; cases (decide (t = html.NodeType.ElementNode) || cs.isEmpty) <;> simp
    have hwf2 : wellFormedList cs = true := by
      revert hwf; cases wellFormedList cs <;> simp
    by_cases ht : t = .TextNode
    · -- a text node: it has no children
      subst ht
      have hcs : cs = [] := by
        have : cs.isEmpty = true := by simpa using hwf1
        exact List.isEmpty_iff.mp this
      subst hcs
      subst hanc
      have hc : counts (p :: rest, html.Node.mk .TextNode d a []) =
          !(decide (p.data = "script")) := by
        simp only [counts, hno, typ_mk, isElement, hp]
        simp
      rw [hc, hpt, hpd, hp]
      simp only [nodesWithAncestorsList, textOf_nil, List.append_nil, data_mk]
      by_cases hs : p.data = "script" <;> simp [hs]
    · have hc : counts (anc, html.Node.mk t d a cs) = false := by
        simp [counts, typ_mk, ht]
      rw [hc, if_neg ht]
      simp only [Bool.false_eq_true, if_false, List.nil_append]
      by_cases htc : t = .CommentNode
      · subst htc
        have hcs : cs = [] := by
          have : cs.isEmpty = true := by simpa using hwf1
          exact List.isEmpty_iff.mp this
        subst hcs
        simp [nodesWithAncestorsList, textOf_nil]
      · rw [if_neg htc]
        by_cases hte : t = .ElementNode
        · subst hte
          by_cases hd : d = "a"
          · subst hd
            have hne : ¬ (html.NodeType.ElementNode = html.NodeType.ElementNode ∧
                ("a" : String) ≠ "a") := by simp
            rw [if_neg hne]
            have hany : (html.Node.mk .ElementNode "a" a cs :: anc).any (isElement "a") =
                true := by
              simp [List.any_cons, isElement, typ_mk, data_mk]
            have hchildren := textOfList_below_anchor cs _ hany
            rw [hchildren]
          · have hpos : html.NodeType.ElementNode = html.NodeType.ElementNode ∧ d ≠ "a" :=
              ⟨rfl, hd⟩
            rw [if_pos hpos]
            refine ih (html.Node.mk .ElementNode d a cs :: anc)
              (html.Node.mk .ElementNode d a []) (html.Node.mk .ElementNode d a cs) anc
              hwf2 rfl ?_ rfl rfl rfl
            simp [List.any_cons, isElement, typ_mk, data_mk, hd, hno]
        · have hne : ¬ (t = html.NodeType.ElementNode ∧ d ≠ "a") := fun h => hte h.1
          rw [if_neg hne]
          have hcs : cs = [] := by
            have : cs.isEmpty = true := by simpa [hte] using hwf1
            exact List.isEmpty_iff.mp this
          subst hcs
          simp [nodesWithAncestorsList, textOf_nil]
  | nil => rfl
  | cons c cs ihc ihcs =>
    rename_i anc parent p rest hwf hanc hno hp hpt hpd
    rw [wellFormedList] at hwf
    have hwf1 : wellFormed c = true := by
      revert hwf; cases wellFormed c <;> simp
    have hwf2 : wellFormedList cs = true := by
      revert hwf; cases wellFormedList cs <;> simp
    rw [outputList, nodesWithAncestorsList, textOf_append,
      ihc anc parent p rest hwf1 hanc hno hp hpt hpd,
      ihcs anc parent p rest hwf2 hanc hno hp hpt hpd]

theorem outputList_eq_textOf (cs : List html.Node) (anc : List html.Node)
    (parent p : html.Node) (rest : List html.Node) (hwf : wellFormedList cs = true)
    (hanc : anc = p :: rest) (hno : anc.any (isElement "a") = false)
    (hp : p.typ = .ElementNode) (hpt : parent.typ = p.typ) (hpd : parent.data = p.data) :
    outputList parent cs = textOf (nodesWithAncestorsList anc cs) := by
  induction cs with
  | nil => rfl
  | cons c cs ih =>
    rw [wellFormedList] at hwf
    have hwf1 : wellFormed c = true := by
      revert hwf; cases wellFormed c <;> simp
    have hwf2 : wellFormedList cs = true := by
      revert hwf; cases wellFormedList cs <;> simp
    rw [outputList, nodesWithAncestorsList, textOf_append,
      output_eq_textOf c anc parent p rest hwf1 hanc hno hp hpt hpd, ih hwf2]

/-- On a well-formed tree whose root is an element, `output` writes the specified
text. -/
theorem output_root_eq_textOf (parent body : html.Node) (hel : body.typ = .ElementNode)
    (hwf : wellFormed body = true) :
    output parent body = textOf (nodesWithAncestors [] body) := by
  obtain ⟨t, d, a, cs⟩ := body
  rw [typ_mk] at hel
  subst hel
  rw [wellFormed] at hwf
  have hwf2 : wellFormedList cs = true := by
    revert hwf; cases wellFormedList cs <;> simp
  have hc : counts ([], html.Node.mk .ElementNode d a cs) = false := by
    simp [counts, typ_mk]
  rw [nodesWithAncestors, textOf_cons, hc, output]
  simp only [Bool.false_eq_true, if_false, List.nil_append]
  rw [if_neg (by decide), if_neg (by decide)]
  by_cases hd : d = "a"
  · subst hd
    rw [if_neg (by simp), textOfList_below_anchor cs _
      (by simp [List.any_cons, isElement, typ_mk, data_mk])]
  · rw [if_pos ⟨trivial, hd⟩]
    exact outputList_eq_textOf cs _ _ (html.Node.mk .ElementNode d a cs) [] hwf2 rfl
      (by simp [List.any_cons, isElement, typ_mk, data_mk, hd]) rfl rfl rfl

/-- The replacement depends on the table only at the characters of the text. -/
theorem replacePunctSym_congr (f g : Char → Bool) (l : List Char)
    (h : ∀ c ∈ l, f c = g c) :
    ∀ b, replacePunctSym f b l = replacePunctSym g b l := by
  induction l with
  | nil => intro b; rfl
  | cons c cs ih =>
    intro b
    have hc : f c = g c := h c (List.mem_cons_self c cs)
    have ih2 := ih (fun x hx => h x (List.mem_cons_of_mem c hx))
    simp only [replacePunctSym, hc, ih2]

/-! #### Runs -/

/-- The finished groups of the splitting loop come first in its result. -/
theorem splitByLoop_finished (R : Char → Char → Bool) (l : List Char) :
    ∀ (a : Char) (g : List Char) (gs : List (List Char)),
      List.splitBy.loop R l a g gs = gs.reverse ++ List.splitBy.loop R l a g [] := by
  induction l with
  | nil =>
    intro a g gs
    simp [List.splitBy.loop]
  | cons b l ih =>
    intro a g gs
    cases hR : R a b with
    | true =>
      simp only [List.splitBy.loop, hR]
      exact ih b (a :: g) gs
    | false =>
      simp only [List.splitBy.loop, hR]
      rw [ih b [] ((a :: g).reverse :: gs), ih b [] [(a :: g).reverse]]
      simp

/-- The first group of the splitting loop: it starts with the group `g` under assembly and
the character `a`, and goes on with characters on which `p` has the value it has on
`a`. -/
theorem splitByLoop_first (p : Char → Bool) (l : List Char) :
    ∀ a : Char, ∃ (r : List Char) (rs : List (List Char)), (∀ x ∈ r, p x = p a) ∧
      ∀ g : List Char, List.splitBy.loop (fun x y => p x == p y) l a g [] =
        (g.reverse ++ a :: r) :: rs := by
  induction l with
  | nil =>
    intro a
    refine ⟨[], [], fun x hx => absurd hx (List.not_mem_nil x), ?_⟩
    intro g
    simp [List.splitBy.loop]
  | cons b l ih =>
    intro a
    obtain ⟨r, rs, hr, hloop⟩ := ih b
    by_cases hab : p a = p b
    · refine ⟨b :: r, rs, ?_, ?_⟩
      · intro x hx
        rcases List.mem_cons.mp hx with h | h
        · rw [h, hab]
        · rw [hr x h, hab]
      · intro g
        have hR : (p a == p b) = true := by rw [hab]; exact beq_self_eq_true _
        simp only [List.splitBy.loop, hR]
        rw [hloop (a :: g)]
        simp
    · refine ⟨[], (b :: r) :: rs, fun x hx => absurd hx (List.not_mem_nil x), ?_⟩
      intro g
      have hR : (p a == p b) = false := by
        cases h1 : p a <;> cases h2 : p b <;> simp_all
      simp only [List.splitBy.loop, hR]
      rw [splitByLoop_finished _ l b [] [(a :: g).reverse], hloop []]
      simp

/-- The runs of a text with one more character in front. -/
theorem runsOf_cons (p : Char → Bool) (a : Char) (l : List Char) :
    ∃ (r : List Char) (rs : List (List Char)), (∀ x ∈ r, p x = p a) ∧
      runsOf p (a :: l) = (a :: r) :: rs ∧
      ∀ c : Char, runsOf p (c :: a :: l) =
        if p c = p a then (c :: a :: r) :: rs else [c] :: (a :: r) :: rs := by
  obtain ⟨r, rs, hr, hloop⟩ := splitByLoop_first p l a
  refine ⟨r, rs, hr, ?_, ?_⟩
  · have := hloop []
    simpa [runsOf, List.splitBy] using this
  · intro c
    by_cases hca : p c = p a
    · have hR : (p c == p a) = true := by rw [hca]; exact beq_self_eq_true _
      rw [if_pos hca]
      simp only [runsOf, List.splitBy, List.splitBy.loop, hR]
      rw [hloop [c]]
      simp
    · have hR : (p c == p a) = false := by
        cases h1 : p c <;> cases h2 : p a <;> simp_all
      rw [if_neg hca]
      simp only [runsOf, List.splitBy, List.splitBy.loop, hR]
      rw [splitByLoop_finished _ l a [] [[c].reverse], hloop []]
      simp

/-- On a run that starts with `a` a predicate that is constant on it holds for all its
characters exactly when it holds for `a`. -/
theorem all_cons_const (q : Char → Bool) (a : Char) (r : List Char)
    (h : ∀ x ∈ r, q x = q a) : (a :: r).all q = q a := by
  cases hq : q a with
  | false => simp [List.all_cons, hq]
  | true =>
    simp only [List.all_cons, hq, Bool.true_and]
    rw [List.all_eq_true]
    intro x hx
    rw [h x hx, hq]

/-! #### The replacement of punctuation and symbols -/

theorem collapsePunctSymRuns_nil (isPunctSym : Char → Bool) :
    collapsePunctSymRuns isPunctSym [] = [] := rfl

theorem collapsePunctSymRuns_single (isPunctSym : Char → Bool) (c : Char) :
    collapsePunctSymRuns isPunctSym [c] = if isPunctSym c then [' '] else [c] := by
  have h : runsOf isPunctSym [c] = [[c]] := rfl
  simp only [collapsePunctSymRuns, h, List.flatMap_cons, List.flatMap_nil, List.append_nil,
    List.all_cons, List.all_nil, Bool.and_true]

/-- The collapsed text with one more character in front. -/
theorem collapsePunctSymRuns_cons_cons (isPunctSym : Char → Bool) (c a : Char)
    (l : List Char) :
    collapsePunctSymRuns isPunctSym (c :: a :: l) =
      if isPunctSym c then
        (if isPunctSym a then collapsePunctSymRuns isPunctSym (a :: l)
         else ' ' :: collapsePunctSymRuns isPunctSym (a :: l))
      else c :: collapsePunctSymRuns isPunctSym (a :: l) := by
  obtain ⟨r, rs, hr, h1, h2⟩ := runsOf_cons isPunctSym a l
  have hall : (a :: r).all isPunctSym = isPunctSym a := all_cons_const isPunctSym a r hr
  have hall2 : isPunctSym c = isPunctSym a → (c :: a :: r).all isPunctSym = isPunctSym c :=
    fun hca => all_cons_const isPunctSym c (a :: r) (fun x hx => by
      rcases List.mem_cons.mp hx with h | h
      · rw [h, hca]
      · rw [hr x h, hca])
  by_cases hca : isPunctSym c = isPunctSym a
  · simp only [collapsePunctSymRuns, h1, h2 c, if_pos hca, List.flatMap_cons, hall,
      hall2 hca]
    rw [← hca]
    cases hc : isPunctSym c <;> simp
  · simp only [collapsePunctSymRuns, h1, h2 c, if_neg hca, List.flatMap_cons, hall,
      List.all_cons, List.all_nil, Bool.and_true]
    cases hc : isPunctSym c <;> cases ha : isPunctSym a <;> simp_all

/-- The scan of `replacePunctSym` replaces every run of punctuation or symbol characters
by one space. -/
theorem replacePunctSym_eq_collapse (isPunctSym : Char → Bool) (l : List Char) :
    replacePunctSym isPunctSym false l = collapsePunctSymRuns isPunctSym l := by
  induction l with
  | nil => rfl
  | cons c l ih =>
    cases l with
    | nil =>
      rw [collapsePunctSymRuns_single]
      cases hc : isPunctSym c <;> simp [replacePunctSym, hc]
    | cons a l =>
      rw [collapsePunctSymRuns_cons_cons, ← ih]
      cases hc : isPunctSym c <;> cases ha : isPunctSym a <;>
        simp [replacePunctSym, hc, ha]

/-! #### Tokens -/

theorem tokenCount_nil : tokenCount [] = 0 := rfl

theorem tokenCount_single (c : Char) :
    tokenCount [c] = if strings.isSpace c then 0 else 1 := by
  have h : runsOf strings.isSpace [c] = [[c]] := rfl
  cases hc : strings.isSpace c <;>
    simp [tokenCount, h, List.filter_cons, hc]

/-- The number of tokens with one more character in front. -/
theorem tokenCount_cons_cons (c a : Char) (l : List Char) :
    tokenCount (c :: a :: l) =
      if strings.isSpace c = strings.isSpace a then tokenCount (a :: l)
      else (if strings.isSpace c then 0 else 1) + tokenCount (a :: l) := by
  obtain ⟨r, rs, hr, h1, h2⟩ := runsOf_cons strings.isSpace a l
  have hall : (a :: r).all (fun x => !strings.isSpace x) = !strings.isSpace a :=
    all_cons_const (fun x => !strings.isSpace x) a r (fun x hx => by
      show (!strings.isSpace x) = !strings.isSpace a
      rw [hr x hx])
  by_cases hca : strings.isSpace c = strings.isSpace a
  · have hall2 : (c :: a :: r).all (fun x => !strings.isSpace x) = !strings.isSpace a := by
      rw [← hca]
      exact all_cons_const (fun x => !strings.isSpace x) c (a :: r) (fun x hx => by
        show (!strings.isSpace x) = !strings.isSpace c
        rcases List.mem_cons.mp hx with h | h
        · rw [h, hca]
        · rw [hr x h, hca])
    rw [if_pos hca]
    simp only [tokenCount, h1, h2 c, if_pos hca, List.filter_cons, hall, hall2]
    cases strings.isSpace a <;> simp
  · rw [if_neg hca]
    simp only [tokenCount, h1, h2 c, if_neg hca, List.filter_cons, hall]
    cases hc : strings.isSpace c <;> cases ha : strings.isSpace a <;>
      simp [List.all_cons, hc, Nat.add_comm]

/-- The number of tokens behind a white space character, and behind a character of a
token. -/
theorem tokenCount_cons (c : Char) (l : List Char) :
    tokenCount (c :: l) =
      if strings.isSpace c then tokenCount l
      else
        (match l with
          | [] => 1
          | a :: _ => if strings.isSpace a then 1 + tokenCount l else tokenCount l) := by
  cases l with
  | nil =>
    rw [tokenCount_single, tokenCount_nil]
  | cons a l =>
    rw [tokenCount_cons_cons]
    cases hc : strings.isSpace c <;> cases ha : strings.isSpace a <;> simp [hc, ha]

/-- The scan of `strings.Fields` finds the whitespace-delimited tokens: with no token open
it yields as many fields as the text has tokens; with a token open, one more unless the
text goes on with that token. -/
theorem fieldsAux_length (l : List Char) :
    (strings.fieldsAux [] l).length = tokenCount l ∧
    ∀ cur : List Char, cur ≠ [] →
      (strings.fieldsAux cur l).length =
        (match l with
          | [] => 1
          | a :: _ => if strings.isSpace a then 1 + tokenCount l else tokenCount l) := by
  induction l with
  | nil =>
    refine ⟨rfl, ?_⟩
    intro cur hcur
    simp [strings.fieldsAux, hcur]
  | cons c l ih =>
    obtain ⟨ih1, ih2⟩ := ih
    have hcons := tokenCount_cons c l
    constructor
    · rw [hcons]
      cases hc : strings.isSpace c with
      | true =>
        simp only [strings.fieldsAux, hc, if_true, List.isEmpty_nil]
        exact ih1
      | false =>
        simp only [strings.fieldsAux, hc, Bool.false_eq_true, if_false]
        exact ih2 [c] (List.cons_ne_nil c [])
    · intro cur hcur
      have hemp : cur.isEmpty = false := by
        cases cur with
        | nil => exact absurd rfl hcur
        | cons x xs => rfl
      cases hc : strings.isSpace c with
      | true =>
        simp only [strings.fieldsAux, hc, if_true, hemp, Bool.false_eq_true, if_false,
          List.length_cons, ih1]
        rw [hcons, hc, if_pos rfl, Nat.add_comm]
      | false =>
        simp only [strings.fieldsAux, hc, Bool.false_eq_true, if_false]
        rw [ih2 (c :: cur) (List.cons_ne_nil c cur), hcons, hc]
        simp

/-- `strings.Fields` returns as many fields as the text has whitespace-delimited
tokens. -/
theorem Fields_length (l : List Char) :
    (strings.Fields (String.mk l)).length = tokenCount l := by
  simp only [strings.Fields, List.length_map]
  exact (fieldsAux_length l).1

/-- C7: on the tree of an HTML body (a well-formed tree whose root is an element),
`countWords` returns the number of whitespace-delimited tokens of the text of the text
nodes that are not below an `<a>` element and are not children of a `<script>` element,
each followed by a space, after every run of punctuation or symbol characters has been
replaced by one space; for `<p>Hello <a href="#">click</a> world</p>
<script>ignored()</script>` the result is 2, and for `<p>don't stop-now a...b</p>`,
where punctuation separates the words, it is 6. -/
theorem C7_countWords_refines_spec :
    (∀ (isPunctSym : Char → Bool) (parent body : html.Node),
      body.typ = .ElementNode → wellFormed body = true →
      countWords isPunctSym parent body = wordCountSpec isPunctSym body) ∧
    (∀ (isPunctSym : Char → Bool) (parent : html.Node),
      (∀ c : Char, c.toNat < 128 → isPunctSym c = asciiPunctSym c) →
      countWords isPunctSym parent exampleBody = 2) ∧
    (∀ (isPunctSym : Char → Bool) (parent : html.Node),
      (∀ c : Char, c.toNat < 128 → isPunctSym c = asciiPunctSym c) →
      countWords isPunctSym parent punctBody = 6) := by
  refine ⟨?_, ?_, ?_⟩
  · intro isPunctSym parent body hel hwf
    simp only [countWords, wordCountSpec, output_root_eq_textOf parent body hel hwf,
      Fields_length, replacePunctSym_eq_collapse]
  · intro isPunctSym parent hascii
    have hbuf : output parent exampleBody = "Hello   world ".data := by
      rw [output_root_eq_textOf parent exampleBody (by decide) (by decide)]
      decide
    simp only [countWords, hbuf]
    rw [replacePunctSym_congr isPunctSym asciiPunctSym _
      (fun c hc => hascii c (by revert c; decide)) false]
    decide
  · intro isPunctSym parent hascii
    have hbuf : output parent punctBody = "don't stop-now a...b ".data := by
      rw [output_root_eq_textOf parent punctBody (by decide) (by decide)]
      decide
    simp only [countWords, hbuf]
    rw [replacePunctSym_congr isPunctSym asciiPunctSym _
      (fun c hc => hascii c (by revert c; decide)) false]
    decide

theorem C7_countWords_refines_spec_witness :
    countWords asciiPunctSym (html.elem "html" [] []) punctBody =
        wordCountSpec asciiPunctSym punctBody ∧
      wordCountSpec asciiPunctSym punctBody = 6 :=
  ⟨C7_countWords_refines_spec.1 asciiPunctSym (html.elem "html" [] []) punctBody
    (by decide) (by decide), by decide⟩

/-! ### URL reporters -/

/-- Searching for a one-character string finds the character. -/
theorem containsList_singleton (c : Char) (l : List Char) :
    strings.containsList [c] l = true ↔ c ∈ l := by
  induction l with
  | nil =>
    show ([c].isEmpty = true) ↔ c ∈ []
    simp
  | cons x xs ih =>
    show (([c].isPrefixOf (x :: xs) || strings.containsList [c] xs) = true) ↔ c ∈ x :: xs
    rw [Bool.or_eq_true, ih, List.mem_cons]
    have hp : [c].isPrefixOf (x :: xs) = (c == x) := by
      simp only [List.isPrefixOf, Bool.and_true]
    rw [hp, beq_iff_eq]

/-- C8: the reporter of `NewUnderscoreURLReporter` has error type `ErrorUnderscoreURL` and
its callback returns true exactly when the page URL contains `_`; the reporter of
`NewSpaceURLReporter` has error type `ErrorSpaceURL` and its callback returns true exactly
when the page URL contains a space; neither changes the page report; the four URLs of the
tests are judged as the tests expect. -/
theorem C8_url_reporters :
    page.NewUnderscoreURLReporter.ErrorType = .ErrorUnderscoreURL ∧
    page.NewSpaceURLReporter.ErrorType = .ErrorSpaceURL ∧
    (∀ (pr : models.PageReport) (doc : html.Node) (hdr : http.Header),
      ((page.NewUnderscoreURLReporter.Callback pr doc hdr).1 = true ↔ '_' ∈ pr.URL.data) ∧
      (page.NewUnderscoreURLReporter.Callback pr doc hdr).2 = pr ∧
      ((page.NewSpaceURLReporter.Callback pr doc hdr).1 = true ↔ ' ' ∈ pr.URL.data) ∧
      (page.NewSpaceURLReporter.Callback pr doc hdr).2 = pr) ∧
    (page.NewUnderscoreURLReporter.Callback (testPageReport "https://example.com/some_url")
      emptyNode emptyHeader).1 = true ∧
    (page.NewUnderscoreURLReporter.Callback (testPageReport "https://example.com/some-url")
      emptyNode emptyHeader).1 = false ∧
    (page.NewSpaceURLReporter.Callback (testPageReport "https://example.com/some url")
      emptyNode emptyHeader).1 = true ∧
    (page.NewSpaceURLReporter.Callback (testPageReport "https://example.com/someurl")
      emptyNode emptyHeader).1 = false := by
  refine ⟨rfl, rfl, ?_, by decide, by decide, by decide, by decide⟩
  intro pr doc hdr
  refine ⟨?_, rfl, ?_, rfl⟩
  · exact containsList_singleton '_' pr.URL.data
  · exact containsList_singleton ' ' pr.URL.data

/-! ### The websocket callback -/

/-- C9: every value that the subscriber callback of `handleCrawlWs` writes is an object
whose `Name` is the name of the message; for a `PageReport` message its `Data` is the
object with exactly the fields `StatusCode`, `URL`, `Crawled`, `Discovered`, `Crawling`
taken from the message, and for a `CrawlEnd` message its `Data` is the integer payload;
on a connection whose write lock is free the callback writes that value and returns the
error of the write. -/
theorem C9_websocket_message_format :
    (∀ (writeErr : Option String) (conn conn2 : crawl.Conn) (msg : pubsub.Message)
      (err : Option String),
      crawl.deliver writeErr conn msg = .ok (some (conn2, err)) →
      ∃ data, conn2.written =
        conn.written ++ [JSON.obj [("Name", .str msg.Name), ("Data", data)]]) ∧
    (∀ m : models.PageReportMessage,
      crawl.wsMessage { Name := "PageReport", Data := .pageReportMessage m } =
        .ok (JSON.obj [
          ("Name", .str "PageReport"),
          ("Data", .obj [
            ("StatusCode", .num m.PageReport.StatusCode),
            ("URL", .str m.PageReport.URL),
            ("Crawled", .num m.Crawled),
            ("Discovered", .num m.Discovered),
            ("Crawling", .bool m.Crawling)])])) ∧
    (∀ n : Int,
      crawl.wsMessage { Name := "CrawlEnd", Data := .int n } =
        .ok (JSON.obj [("Name", .str "CrawlEnd"), ("Data", .num n)])) ∧
    (∀ (writeErr : Option String) (conn : crawl.Conn) (m : models.PageReportMessage),
      conn.lockHeld = false →
      ∃ conn2, crawl.deliver writeErr conn
          { Name := "PageReport", Data := .pageReportMessage m } =
            .ok (some (conn2, writeErr)) ∧
        conn2.written = conn.written ++ [JSON.obj [
          ("Name", .str "PageReport"),
          ("Data", .obj [
            ("StatusCode", .num m.PageReport.StatusCode),
            ("URL", .str m.PageReport.URL),
            ("Crawled", .num m.Crawled),
            ("Discovered", .num m.Discovered),
            ("Crawling", .bool m.Crawling)])]]) ∧
    (∀ (writeErr : Option String) (conn : crawl.Conn) (n : Int),
      conn.lockHeld = false →
      ∃ conn2, crawl.deliver writeErr conn { Name := "CrawlEnd", Data := .int n } =
          .ok (some (conn2, writeErr)) ∧
        conn2.written = conn.written ++ [JSON.obj [
          ("Name", .str "CrawlEnd"), ("Data", .num n)]]) := by
  refine ⟨?_, fun m => rfl, fun n => rfl, ?_, ?_⟩
  · intro writeErr conn conn2 msg err h
    unfold crawl.deliver at h
    cases hws : crawl.wsMessage msg with
    | error e => rw [hws] at h; cases h
    | ok ws =>
      rw [hws] at h
      unfold crawl.Lock at h
      by_cases hl : conn.lockHeld = true
      · simp [hl] at h
      · simp only [hl, Bool.false_eq_true, if_false, Except.ok.injEq, Option.some.injEq,
          Prod.mk.injEq] at h
        obtain ⟨h1, -⟩ := h
        subst h1
        simp only [crawl.Unlock]
        unfold crawl.wsMessage at hws
        simp only at hws
        split at hws
        · cases hws
        · rename_i data hdata
          split at hws
          · split at hws
            · cases hws; exact ⟨_, rfl⟩
            · cases hws
          · cases hws; exact ⟨_, rfl⟩
  · intro writeErr conn m hl
    refine ⟨{ lockHeld := false, written := conn.written ++ [JSON.obj [
      ("Name", .str "PageReport"),
      ("Data", .obj [
        ("StatusCode", .num m.PageReport.StatusCode),
        ("URL", .str m.PageReport.URL),
        ("Crawled", .num m.Crawled),
        ("Discovered", .num m.Discovered),
        ("Crawling", .bool m.Crawling)])]] }, ?_, rfl⟩
    have hws : crawl.wsMessage { Name := "PageReport", Data := .pageReportMessage m } =
        .ok (JSON.obj [
          ("Name", .str "PageReport"),
          ("Data", .obj [
            ("StatusCode", .num m.PageReport.StatusCode),
            ("URL", .str m.PageReport.URL),
            ("Crawled", .num m.Crawled),
            ("Discovered", .num m.Discovered),
            ("Crawling", .bool m.Crawling)])]) := rfl
    simp only [crawl.deliver, hws, crawl.Lock, hl, Bool.false_eq_true, if_false,
      crawl.Unlock]
  · intro writeErr conn n hl
    refine ⟨{ lockHeld := false, written := conn.written ++ [JSON.obj [
      ("Name", .str "CrawlEnd"), ("Data", .num n)]] }, ?_, rfl⟩
    have hws : crawl.wsMessage { Name := "CrawlEnd", Data := .int n } =
        .ok (JSON.obj [("Name", .str "CrawlEnd"), ("Data", .num n)]) := rfl
    simp only [crawl.deliver, hws, crawl.Lock, hl, Bool.false_eq_true, if_false,
      crawl.Unlock]

theorem C9_websocket_message_format_witness :
    ∃ conn2, crawl.deliver none {} { Name := "CrawlEnd", Data := .int 12 } =
        .ok (some (conn2, none)) ∧
      conn2.written = ({} : crawl.Conn).written ++ [JSON.obj [
        ("Name", .str "CrawlEnd"), ("Data", .num 12)]] :=
  C9_websocket_message_format.2.2.2.2 none {} 12 rfl

/-! ### The crawl handlers -/

/-- C10, the code at the failing input: for the BasicAuth project 5, `handleCrawl`
starts no crawler and redirects to `/crawl-auth?id=5`; `handleCrawlAuth` reads the
parameter `pid`, finds none in that URL and redirects to `/`, while on
`/crawl-auth?pid=5` it renders the credentials form of the project.  The first part
holds for every project with BasicAuth: the redirect target carries the id in the
parameter `id`. -/
theorem C10_basic_auth_redirect_uses_id :
    (∀ (app : crawl.App) (r : crawl.Request) (pid : Int) (user : models.User)
      (p : models.Project), strconv.Atoi (url.QueryGet r.URL "pid") = .ok pid →
      app.GetUser = some user → app.FindProject pid user.Id = .ok p → p.BasicAuth = true →
      crawl.handleCrawl app r =
        [.redirect ("/crawl-auth?id=" ++ strconv.Itoa pid) crawl.StatusSeeOther]) ∧
    crawl.handleCrawl authApp crawlRequest = [.redirect "/crawl-auth?id=5" 303] ∧
    (crawl.followRedirect "/crawl-auth?id=5").map (crawl.handleCrawlAuth authApp) =
      some [.redirect "/" 303] ∧
    (crawl.followRedirect "/crawl-auth?pid=5").map (crawl.handleCrawlAuth authApp) =
      some [.render "crawl_auth" authProject] := by
  refine ⟨?_, by decide, by decide, by decide⟩
  intro app r pid user p hpid huser hp hauth
  simp only [crawl.handleCrawl, hpid, huser, hp, hauth, if_true]

/-! ### The refresh step -/

/-- The refresh step panics when the content of the first refresh element has a second
`;`-separated part shorter than four bytes. -/
theorem parseRefresh_short_segment (urlParse : String → Except String url.URL)
    (pr : PageReport) (doc : html.Node) (content : String) (rest : List String)
    (seg0 u1 : String) (more : List String)
    (hc : htmlquery.attrValues
      (htmlquery.FindWithAttrVal doc "meta" "http-equiv" "refresh") "content" =
        content :: rest)
    (hs : strings.Split content ';' = seg0 :: u1 :: more) (hlen : u1.utf8ByteSize < 4) :
    parseRefresh urlParse pr doc = .error "runtime error: slice bounds out of range" := by
  unfold parseRefresh
  simp only [hc, hs, hlen, if_true]

/-- C11, the code at the failing inputs: on an HTML page with a non-redirect status whose
first `<meta http-equiv="refresh">` has a content with a second `;`-separated part shorter
than four bytes, `NewPageReport` returns no report: `parse` panics in the slice expression
`u[1][:4]`.  So it is for the contents `0;`, `5;x` and `0; `, while for `0` and
`0;url=/x` a report is returned. -/
theorem C11_refresh_short_segment_panics :
    (∀ (urlParse : String → Except String url.URL) (parseMediaType : String → String)
      (htmlParse : List UInt8 → Except String html.Node) (isPunctSym : Char → Bool)
      (url : url.URL) (status : Int) (headers : http.Header) (body : List UInt8)
      (doc : html.Node) (content : String) (rest : List String) (seg0 u1 : String)
      (more : List String),
      ¬ (300 ≤ status ∧ status < 400) →
      parseMediaType (headers.Get "Content-Type") = "text/html" →
      htmlParse body = .ok doc →
      htmlquery.attrValues
        (htmlquery.FindWithAttrVal doc "meta" "http-equiv" "refresh") "content" =
          content :: rest →
      strings.Split content ';' = seg0 :: u1 :: more → u1.utf8ByteSize < 4 →
      NewPageReport urlParse parseMediaType htmlParse isPunctSym url status headers body =
        .error "runtime error: slice bounds out of range") ∧
    NewPageReport url.Parse (fun s => s) (fun _ => .ok (refreshDoc "0;")) asciiPunctSym
      examplePageURL 200 htmlHeaders [] =
        .error "runtime error: slice bounds out of range" ∧
    NewPageReport url.Parse (fun s => s) (fun _ => .ok (refreshDoc "5;x")) asciiPunctSym
      examplePageURL 200 htmlHeaders [] =
        .error "runtime error: slice bounds out of range" ∧
    NewPageReport url.Parse (fun s => s) (fun _ => .ok (refreshDoc "0; ")) asciiPunctSym
      examplePageURL 200 htmlHeaders [] =
        .error "runtime error: slice bounds out of range" ∧
    (NewPageReport url.Parse (fun s => s) (fun _ => .ok (refreshDoc "0")) asciiPunctSym
      examplePageURL 200 htmlHeaders []).map (fun pr => (pr.Refresh, pr.RedirectURL)) =
        .ok ("0", "") ∧
    (NewPageReport url.Parse (fun s => s) (fun _ => .ok (refreshDoc "0;url=/x"))
      asciiPunctSym examplePageURL 200 htmlHeaders []).map
        (fun pr => (pr.Refresh, pr.RedirectURL)) =
        .ok ("0;url=/x", "https://example.com/x") := by
  refine ⟨?_, by decide, by decide, by decide, by decide, by decide⟩
  intro urlParse parseMediaType htmlParse isPunctSym url status headers body doc content
    rest seg0 u1 more hst hmt hdoc hc hs hlen
  unfold NewPageReport
  simp only [http.StatusMultipleChoices, http.StatusBadRequest, ge_iff_le]
  rw [if_neg hst, if_pos hmt]
  unfold parse
  simp only [hdoc]
  rw [parseRefresh_short_segment urlParse _ doc content rest seg0 u1 more hc hs hlen]

/-! ### The write lock -/

/-- C12, the code on its paths: an iteration of the keepalive loop whose ping fails ends
the loop with the lock still held, after which every delivery and every further probe is
blocked at `Lock`; an iteration whose ping succeeds releases the lock, and so does every
delivery callback, whether its write succeeds or fails. -/
theorem C12_keepalive_error_keeps_lock :
    (∀ (conn conn2 : crawl.Conn) (e : String) (goesOn : Bool),
      crawl.keepaliveTick (some e) conn = some (conn2, goesOn) →
      conn2.lockHeld = true ∧ goesOn = false ∧
      crawl.keepaliveTick none conn2 = none ∧
      ∀ (writeErr : Option String) (msg : pubsub.Message) (ws : JSON),
        crawl.wsMessage msg = .ok ws → crawl.deliver writeErr conn2 msg = .ok none) ∧
    (∀ (conn : crawl.Conn) (e : String), conn.lockHeld = false →
      ∃ conn2, crawl.keepaliveTick (some e) conn = some (conn2, false) ∧
        conn2.lockHeld = true) ∧
    (∀ (conn conn2 : crawl.Conn) (goesOn : Bool),
      crawl.keepaliveTick none conn = some (conn2, goesOn) →
      conn2.lockHeld = false ∧ goesOn = true) ∧
    (∀ (writeErr : Option String) (conn conn2 : crawl.Conn) (msg : pubsub.Message)
      (err : Option String),
      crawl.deliver writeErr conn msg = .ok (some (conn2, err)) →
      conn2.lockHeld = false ∧ err = writeErr) ∧
    (crawl.keepaliveTick (some "write: broken pipe") {}).map
      (fun x => (x.1.lockHeld, x.2)) = some (true, false) := by
  refine ⟨?_, ?_, ?_, ?_, rfl⟩
  · intro conn conn2 e goesOn h
    unfold crawl.keepaliveTick crawl.Lock at h
    by_cases hl : conn.lockHeld = true
    · simp [hl] at h
    · simp only [hl, Bool.false_eq_true, if_false, Option.some.injEq, Prod.mk.injEq] at h
      obtain ⟨h1, h2⟩ := h
      subst h1
      refine ⟨rfl, h2.symm, rfl, ?_⟩
      intro writeErr msg ws hws
      simp only [crawl.deliver, hws, crawl.Lock, if_true]
  · intro conn e hl
    refine ⟨{ conn with lockHeld := true }, ?_, rfl⟩
    simp only [crawl.keepaliveTick, crawl.Lock, hl, Bool.false_eq_true, if_false]
  · intro conn conn2 goesOn h
    unfold crawl.keepaliveTick crawl.Lock at h
    by_cases hl : conn.lockHeld = true
    · simp [hl] at h
    · simp only [hl, Bool.false_eq_true, if_false, Option.some.injEq, Prod.mk.injEq] at h
      obtain ⟨h1, h2⟩ := h
      subst h1
      exact ⟨rfl, h2.symm⟩
  · intro writeErr conn conn2 msg err h
    unfold crawl.deliver at h
    cases hws : crawl.wsMessage msg with
    | error e => rw [hws] at h; cases h
    | ok ws =>
      rw [hws] at h
      unfold crawl.Lock at h
      by_cases hl : conn.lockHeld = true
      · simp [hl] at h
      · simp only [hl, Bool.false_eq_true, if_false, Except.ok.injEq, Option.some.injEq,
          Prod.mk.injEq] at h
        obtain ⟨h1, h2⟩ := h
        subst h1
        exact ⟨rfl, h2.symm⟩

/-! ### The issues handlers -/

/-- C13, the code at the failing input: when `GetProjectView` returns an error,
`serveIssues` redirects to `/` and goes on: with a nil view it panics reading the crawl
id, with a view it calls `GetIssuesCount` and renders the `issues` template;
`serveIssuesView` stops after the redirect. -/
theorem C13_serveIssues_goes_on_after_redirect :
    (∀ (a : app.App) (user : models.User) (r : crawl.Request) (pid : Int) (e : String),
      strconv.Atoi (url.QueryGet r.URL "pid") = .ok pid →
      a.GetProjectView pid user.Id = (none, some e) →
      app.serveIssues a user r =
        [.redirect "/" 303, .panic "invalid memory address or nil pointer dereference"]) ∧
    (∀ (a : app.App) (user : models.User) (r : crawl.Request) (pid : Int)
      (pv : app.ProjectView) (e : String),
      strconv.Atoi (url.QueryGet r.URL "pid") = .ok pid →
      a.GetProjectView pid user.Id = (some pv, some e) →
      app.serveIssues a user r =
        [.redirect "/" 303, .getIssuesCount pv.CrawlId, .render "issues"]) ∧
    (∀ (a : app.App) (user : models.User) (r : crawl.Request) (pid : Int)
      (pv : Option app.ProjectView) (e : String), url.QueryGet r.URL "eid" ≠ "" →
      strconv.Atoi (url.QueryGet r.URL "pid") = .ok pid →
      a.GetProjectView pid user.Id = (pv, some e) →
      app.serveIssuesView a user r = [.redirect "/" 303]) ∧
    app.serveIssues noViewApp { Id := 1 } issuesRequest =
      [.redirect "/" 303, .panic "invalid memory address or nil pointer dereference"] ∧
    app.serveIssues staleViewApp { Id := 1 } issuesRequest =
      [.redirect "/" 303, .getIssuesCount 9, .render "issues"] ∧
    app.serveIssuesView noViewApp { Id := 1 } issuesViewRequest = [.redirect "/" 303] := by
  refine ⟨?_, ?_, ?_, by decide, by decide, by decide⟩
  · intro a user r pid e hpid hpv
    simp only [app.serveIssues, hpid, hpv]
    rfl
  · intro a user r pid pv e hpid hpv
    simp only [app.serveIssues, hpid, hpv]
    rfl
  · intro a user r pid pv e heid hpid hpv
    simp only [app.serveIssuesView, heid, hpid, hpv, if_false]
    rfl

end Seonaut
